import Mathlib

/-!
# smallcalc: the recursive descent calculator of `smallcalc.cpp`

A shallow embedding of `smallcalc::Parser` and theorems about it.

* The C string handed to `parse` is a `List Char`, one `Char` per C `char`; the terminating
  NUL is implicit: reading at or past the end of the list reads the terminator.
* `m_cursor` is the offset of the C pointer from `m_expr`.
* `float`, its operations and `strtod` belong to the C++ implementation, not to the
  repository: they are the fields of `FloatOps`, and the theorems hold for every choice of
  them. Concrete numbers are computed in `rational`, the arithmetic without rounding.
* A C++ exception is the outcome `throw`. The levels of the grammar call each other; the
  embedding bounds the depth of these calls by a recursion budget, and a call that uses up
  every budget does not return in C++ (it recurses until the stack is exhausted).
* The arrays `token_value` and `m_expr` are lists; their capacities are the constants
  `MAX_TOKEN_LENGTH` and `MAX_EXPRESSION_LENGTH`. The source never checks them; a text longer
  than an array is written past its end in C++, and the embedding keeps the whole text.
-/

namespace smallcalc

/-! ## Data model -/

/-- Capacity of `token_value` (source line 8). -/
def MAX_TOKEN_LENGTH : Nat := 20

/-- Capacity of `m_expr` (source line 9). -/
def MAX_EXPRESSION_LENGTH : Nat := 1000

/-- The enum `TOKEN_TYPE` (source lines 24-35). -/
inductive TOKEN_TYPE where
  | UNDEFINED
  | VARIABLE
  | NUMBER
  | ADDITION_OP
  | SUBSTRACTION_OP
  | DIVISION_OP
  | MULTIPLICATION_OP
  | OPEN_PARENTHESIS
  | CLOSE_PARENTHESIS
  deriving DecidableEq, Repr

/-- The `std::domain_error` exceptions thrown by the source, one constructor per `throw`. -/
inductive Error where
  /-- Thrown by `next_token` (line 183); `n` is `m_cursor - m_expr + 1`. -/
  | column (n : Nat)
  /-- Thrown by `get_number` (line 97). -/
  | not_a_number
  /-- Thrown by `eval_operator` (line 113). -/
  | bad_operator
  /-- Thrown by `level4` (line 242). -/
  | missing_close
  deriving DecidableEq, Repr

/-- The text `e.what()` of each exception. -/
def Error.what : Error → String
  | .column n => "Error occured at column " ++ toString n
  | .not_a_number => "get_number() was called while the current token is not of type NUMBER"
  | .bad_operator => "eval_operator() was called with an unrecognized operator id"
  | .missing_close => "Missing close parenthesis"

/-- The arithmetic the source takes from C++: the type `float`, `+ - / *`, unary `-`,
`(float) strtod(text, NULL)` and the literal `0.0f`. -/
structure FloatOps (F : Type) where
  add : F → F → F
  sub : F → F → F
  div : F → F → F
  mul : F → F → F
  neg : F → F
  strtod : List Char → F
  zero : F

/-- The data members of `class Parser` (lines 63-66). -/
structure Parser where
  token_type : TOKEN_TYPE
  token_value : List Char
  m_expr : List Char
  m_cursor : Nat
  deriving DecidableEq, Repr

/-- What a call does: it returns `a`, it throws `e`, or the recursion budget is used up. -/
inductive Outcome (α : Type) where
  | ok (a : α)
  | throw (e : Error)
  | out_of_fuel
  deriving DecidableEq, Repr

/-- Sequencing of calls: an exception or an exhausted budget of the first call ends the
second. -/
def Outcome.bind {α β : Type} : Outcome α → (α → Outcome β) → Outcome β
  | .ok a, f => f a
  | .throw e, _ => .throw e
  | .out_of_fuel, _ => .out_of_fuel

/-! ## The lexer -/

/-- The C-locale `isspace`. -/
def isspace (c : Char) : Bool :=
  c = ' ' || c = '\t' || c = '\n' || c = '\x0b' || c = '\x0c' || c = '\r'

/-- The C `isdigit`. -/
def isdigit (c : Char) : Bool :=
  '0' ≤ c && c ≤ '9'

/-- The character `m_expr[i]`; the terminator at and past the end. -/
def char_at (m_expr : List Char) (i : Nat) : Char :=
  m_expr.getD i '\x00'

/-- The loop `while (isspace(*m_cursor)) ++m_cursor;` (lines 126-127) run on the text at the
cursor: the number of increments. -/
def skip_whitespace : List Char → Nat
  | [] => 0
  | c :: cs => if isspace c then skip_whitespace cs + 1 else 0

/-- The loop of the numeric branch (lines 168-177) run on the text at the cursor: the
characters it stores in `token_value`, each stored together with one `++m_cursor`. The test
`m_cursor != 0` of the loop compares the pointer, which is never null. -/
def scan_number : List Char → List Char
  | [] => []
  | c :: cs =>
    if isdigit c then
      match cs with
      | [] => [c]
      | d :: ds => if d = '.' then c :: d :: scan_number ds else c :: scan_number (d :: ds)
    else []

/-- The method `next_token` (lines 117-186). The first test, `m_cursor == 0`, compares the
pointer `m_cursor` with the null pointer; `m_cursor` points into `m_expr`, so that branch is
never taken. When no branch applies (the terminator is reached) nothing is assigned. The
numeric branch stores the whole number text, as the source does, which has no test of `i`
against `MAX_TOKEN_LENGTH`: a text of `MAX_TOKEN_LENGTH` characters or more is written past
the end of `token_value` in C++, and from there on the list is no picture of the array. -/
def next_token (p : Parser) : Except Error Parser :=
  let cur := p.m_cursor + skip_whitespace (p.m_expr.drop p.m_cursor)
  let c := char_at p.m_expr cur
  if c = '+' then
    .ok { p with token_type := .ADDITION_OP, token_value := ['+'], m_cursor := cur + 1 }
  else if c = '-' then
    .ok { p with token_type := .SUBSTRACTION_OP, token_value := ['-'], m_cursor := cur + 1 }
  else if c = '/' then
    .ok { p with token_type := .DIVISION_OP, token_value := ['/'], m_cursor := cur + 1 }
  else if c = '*' then
    .ok { p with token_type := .MULTIPLICATION_OP, token_value := ['*'], m_cursor := cur + 1 }
  else if c = '(' then
    .ok { p with token_type := .OPEN_PARENTHESIS, token_value := ['('], m_cursor := cur + 1 }
  else if c = ')' then
    .ok { p with token_type := .CLOSE_PARENTHESIS, token_value := [')'], m_cursor := cur + 1 }
  else if isdigit c then
    let text := scan_number (p.m_expr.drop cur)
    .ok { p with token_type := .NUMBER, token_value := text, m_cursor := cur + text.length }
  else if c ≠ '\x00' then
    .error (.column (cur + 1))
  else
    .ok { p with m_cursor := cur }

/-- A call of `next_token` inside a grammar level. -/
def next_token_call {α : Type} (p : Parser) (k : Parser → Outcome α) : Outcome α :=
  match next_token p with
  | .ok q => k q
  | .error e => .throw e

/-! ## The evaluator -/

/-- The method `get_number` (lines 88-98). -/
def get_number {F : Type} (A : FloatOps F) (p : Parser) : Outcome (F × Parser) :=
  if p.token_type = .NUMBER then
    let n := A.strtod p.token_value
    next_token_call p fun q => .ok (n, q)
  else
    .throw .not_a_number

/-- The method `eval_operator` (lines 100-115). -/
def eval_operator {F : Type} (A : FloatOps F) (op_id : TOKEN_TYPE) (lhs rhs : F) : Outcome F :=
  match op_id with
  | .ADDITION_OP => .ok (A.add lhs rhs)
  | .SUBSTRACTION_OP => .ok (A.sub lhs rhs)
  | .DIVISION_OP => .ok (A.div lhs rhs)
  | .MULTIPLICATION_OP => .ok (A.mul lhs rhs)
  | _ => .throw .bad_operator

mutual
/-- The method `level1` (lines 190-201) up to its loop. -/
def level1 {F : Type} (A : FloatOps F) : Nat → Parser → Outcome (F × Parser)
  | 0, _ => .out_of_fuel
  | n + 1, p => (level2 A n p).bind fun r => level1_loop A n r.1 r.2
/-- The `while` loop of `level1` (lines 193-200), entered with `ans`. -/
def level1_loop {F : Type} (A : FloatOps F) : Nat → F → Parser → Outcome (F × Parser)
  | 0, _, _ => .out_of_fuel
  | n + 1, ans, p =>
    let operator_id := p.token_type
    if operator_id = .ADDITION_OP ∨ operator_id = .SUBSTRACTION_OP then
      next_token_call p fun q =>
        (level2 A n q).bind fun r =>
          (eval_operator A operator_id ans r.1).bind fun ans => level1_loop A n ans r.2
    else .ok (ans, p)
/-- The method `level2` (lines 205-216) up to its loop. -/
def level2 {F : Type} (A : FloatOps F) : Nat → Parser → Outcome (F × Parser)
  | 0, _ => .out_of_fuel
  | n + 1, p => (level3 A n p).bind fun r => level2_loop A n r.1 r.2
/-- The `while` loop of `level2` (lines 208-215), entered with `ans`. -/
def level2_loop {F : Type} (A : FloatOps F) : Nat → F → Parser → Outcome (F × Parser)
  | 0, _, _ => .out_of_fuel
  | n + 1, ans, p =>
    let operator_id := p.token_type
    if operator_id = .DIVISION_OP ∨ operator_id = .MULTIPLICATION_OP then
      next_token_call p fun q =>
        (level3 A n q).bind fun r =>
          (eval_operator A operator_id ans r.1).bind fun ans => level2_loop A n ans r.2
    else .ok (ans, p)
/-- The method `level3` (lines 220-230). -/
def level3 {F : Type} (A : FloatOps F) : Nat → Parser → Outcome (F × Parser)
  | 0, _ => .out_of_fuel
  | n + 1, p =>
    if p.token_type = .SUBSTRACTION_OP then
      next_token_call p fun q => (level4 A n q).bind fun r => .ok (A.neg r.1, r.2)
    else level4 A n p
/-- The method `level4` (lines 234-249). -/
def level4 {F : Type} (A : FloatOps F) : Nat → Parser → Outcome (F × Parser)
  | 0, _ => .out_of_fuel
  | n + 1, p =>
    if p.token_type = .OPEN_PARENTHESIS then
      next_token_call p fun q =>
        (level1 A n q).bind fun r =>
          if r.2.token_type ≠ .CLOSE_PARENTHESIS then .throw .missing_close
          else next_token_call r.2 fun q => .ok (r.1, q)
    else get_number A p
end

/-- The assignments of `parse` before the first `next_token` (lines 74-77): `strcpy` copies
`expr` up to its first NUL, and every other member is overwritten. The source has no test of
the length of `expr`: a C string of `MAX_EXPRESSION_LENGTH` characters or more is written
past the end of `m_expr` in C++, and the list is a picture of the array only for a shorter
one (`main` reads at most `MAX_EXPRESSION_LENGTH - 1` characters). -/
def parse_init (self : Parser) (expr : List Char) : Parser :=
  { self with
    m_expr := expr.takeWhile (fun c => c ≠ '\x00'),
    m_cursor := 0,
    token_value := [],
    token_type := .UNDEFINED }

/-- The `try` block of `parse` (lines 74-79). -/
def parse_try {F : Type} (A : FloatOps F) (fuel : Nat) (self : Parser) (expr : List Char) :
    Outcome (F × Parser) :=
  next_token_call (parse_init self expr) fun q => level1 A fuel q

/-- The method `parse` (lines 70-86): the lines written to `std::cout` and the returned
`float`. A caught exception is printed and `0.0f` is returned. -/
def parse {F : Type} (A : FloatOps F) (fuel : Nat) (self : Parser) (expr : List Char) :
    Outcome (List String × F) :=
  match parse_try A fuel self expr with
  | .ok r => .ok ([], r.1)
  | .throw e => .ok ([e.what], A.zero)
  | .out_of_fuel => .out_of_fuel

/-! ## Outcomes of `parse` -/

/-- The outcome `x` is `out_of_fuel`, or it is `y`. -/
def Outcome.le {α : Type} (x y : Outcome α) : Prop := x = .out_of_fuel ∨ x = y

/-- The call `parse(expr)` on the object `self` returns: from some recursion budget on the
outcome is `r`, the printed lines and the returned number. -/
def Returns {F : Type} (A : FloatOps F) (self : Parser) (expr : List Char)
    (r : List String × F) : Prop :=
  ∃ N, ∀ n, N ≤ n → parse A n self expr = .ok r

/-- The call `parse(expr)` on the object `self` never returns: no recursion budget is enough. -/
def Diverges {F : Type} (A : FloatOps F) (self : Parser) (expr : List Char) : Prop :=
  ∀ n, parse A n self expr = .out_of_fuel


/-! ## Two instances of the arithmetic -/

/-- The operations a call performs, written down instead of computed. -/
inductive Sym where
  | lit (text : List Char)
  | zero
  | add (a b : Sym)
  | sub (a b : Sym)
  | div (a b : Sym)
  | mul (a b : Sym)
  | neg (a : Sym)
  deriving DecidableEq, Repr

/-- The arithmetic that records its operations. -/
def sym : FloatOps Sym :=
  { add := Sym.add, sub := Sym.sub, div := Sym.div, mul := Sym.mul, neg := Sym.neg,
    strtod := Sym.lit, zero := Sym.zero }

/-- The recorded operations carried out in the arithmetic `A`. -/
def Sym.eval {F : Type} (A : FloatOps F) : Sym → F
  | .lit text => A.strtod text
  | .zero => A.zero
  | .add a b => A.add (a.eval A) (b.eval A)
  | .sub a b => A.sub (a.eval A) (b.eval A)
  | .div a b => A.div (a.eval A) (b.eval A)
  | .mul a b => A.mul (a.eval A) (b.eval A)
  | .neg a => A.neg (a.eval A)

/-- The recorded result of a level carried over to the arithmetic `A`. -/
def Sym.result {F : Type} (A : FloatOps F) (x : Outcome (Sym × Parser)) : Outcome (F × Parser) :=
  x.bind fun r => .ok (r.1.eval A, r.2)

/-- The number written by a run of decimal digits. -/
def decimal_value (digits : List Char) : Nat :=
  digits.foldl (fun acc c => 10 * acc + (c.toNat - '0'.toNat)) 0

/-- The digits `strtod` reads: the longest leading text of the form digits, optionally
followed by a point and digits. The result is the digits before the point and the digits
after it. -/
def strtod_digits (text : List Char) : List Char × List Char :=
  (text.takeWhile isdigit,
    match text.dropWhile isdigit with
    | d :: r => if d = '.' then r.takeWhile isdigit else []
    | [] => [])

/-- The digits read by `strtod` as one natural number, the point left out. -/
def strtod_number (text : List Char) : Nat :=
  decimal_value ((strtod_digits text).1 ++ (strtod_digits text).2)

/-- The number of digits read by `strtod` after the point. -/
def strtod_scale (text : List Char) : Nat :=
  (strtod_digits text).2.length

/-- The number `strtod` reads when nothing is rounded. -/
def rational_strtod (text : List Char) : ℚ :=
  (strtod_number text : ℚ) / (10 ^ strtod_scale text : ℕ)

/-- Arithmetic without rounding, on the rationals, for the numbers of the examples. Binary
floating point agrees with it as long as every number met is one it represents exactly.
Division by zero has no meaning here. -/
def rational : FloatOps ℚ :=
  { add := fun a b => a + b, sub := fun a b => a - b, div := fun a b => a / b,
    mul := fun a b => a * b, neg := fun a => -a, strtod := rational_strtod, zero := 0 }

/-- Some `Parser` object; `parse` overwrites every member of the object before it reads
one. -/
def fresh : Parser :=
  { token_type := .UNDEFINED, token_value := [], m_expr := [], m_cursor := 0 }

/-! ## Texts -/

/-- The text from the cursor to the terminator. -/
def Parser.text (p : Parser) : List Char :=
  p.m_expr.drop p.m_cursor

/-- A run of white space. -/
def is_blank (ws : List Char) : Bool :=
  ws.all isspace

/-- The token kind of the six one-character tokens. -/
def token_of_char (c : Char) : Option TOKEN_TYPE :=
  if c = '+' then some .ADDITION_OP
  else if c = '-' then some .SUBSTRACTION_OP
  else if c = '/' then some .DIVISION_OP
  else if c = '*' then some .MULTIPLICATION_OP
  else if c = '(' then some .OPEN_PARENTHESIS
  else if c = ')' then some .CLOSE_PARENTHESIS
  else none

/-- A numeral `digits` or `digits.digits`, both runs of digits non-empty. -/
def is_numeral : List Char → Bool
  | [] => false
  | c :: cs =>
    isdigit c &&
      match cs with
      | [] => true
      | d :: ds => if d = '.' then !ds.isEmpty && ds.all isdigit else is_numeral (d :: ds)

/-- The texts the numeric branch of `next_token` can store: one or more groups of a digit
and an optional point after it. -/
def is_number_text : List Char → Bool
  | [] => false
  | c :: cs =>
    isdigit c &&
      match cs with
      | [] => true
      | d :: ds => if d = '.' then ds.isEmpty || is_number_text ds else is_number_text (d :: ds)

/-- The text `tail` does not go on a numeral that ends right before it: it is empty or
starts with neither a digit nor a point. -/
def ends_numeral (tail : List Char) : Bool :=
  match tail with
  | [] => true
  | c :: _ => !isdigit c && c != '.'

/-- The state of the parser once `next_token` has read a token of kind `t` and text `text`
that ends `k` characters after the cursor of `p`. -/
def Parser.advance (p : Parser) (t : TOKEN_TYPE) (text : List Char) (k : Nat) : Parser :=
  { p with token_type := t, token_value := text, m_cursor := p.m_cursor + k }

/-- The branches of `next_token` on the text `rest` that follows the white space. -/
def lex (p : Parser) (k : Nat) (rest : List Char) : Except Error Parser :=
  match rest with
  | [] => .ok { p with m_cursor := p.m_cursor + k }
  | c :: _ =>
    match token_of_char c with
    | some t => .ok (p.advance t [c] (k + 1))
    | none =>
      if isdigit c then .ok (p.advance .NUMBER (scan_number rest) (k + (scan_number rest).length))
      else if c ≠ '\x00' then .error (.column (p.m_cursor + k + 1))
      else .ok { p with m_cursor := p.m_cursor + k }


/-! ## Well-formed expressions -/

/-- From some recursion budget on, the outcome of `f` is `r`. -/
def Eventually {α : Type} (f : Nat → Outcome α) (r : Outcome α) : Prop :=
  ∃ N, ∀ n, N ≤ n → f n = r

/-- The four levels of the grammar
`sum := term (('+'|'-') term)*`, `term := unary (('*'|'/') unary)*`,
`unary := '-'? primary`, `primary := number | '(' sum ')'`. -/
inductive Level where
  | sum
  | term
  | unary
  | primary
  deriving DecidableEq, Repr

/-- The operators of a sum. -/
inductive AddOp where
  | plus
  | minus
  deriving DecidableEq, Repr

/-- The operators of a term. -/
inductive MulOp where
  | times
  | over
  deriving DecidableEq, Repr

/-- The character of an operator of a sum. -/
def AddOp.char : AddOp → Char
  | .plus => '+'
  | .minus => '-'

/-- The token kind of an operator of a sum. -/
def AddOp.token : AddOp → TOKEN_TYPE
  | .plus => .ADDITION_OP
  | .minus => .SUBSTRACTION_OP

/-- The operation of an operator of a sum. -/
def AddOp.apply {F : Type} (A : FloatOps F) : AddOp → F → F → F
  | .plus => A.add
  | .minus => A.sub

/-- The character of an operator of a term. -/
def MulOp.char : MulOp → Char
  | .times => '*'
  | .over => '/'

/-- The token kind of an operator of a term. -/
def MulOp.token : MulOp → TOKEN_TYPE
  | .times => .MULTIPLICATION_OP
  | .over => .DIVISION_OP

/-- The operation of an operator of a term. -/
def MulOp.apply {F : Type} (A : FloatOps F) : MulOp → F → F → F
  | .times => A.mul
  | .over => A.div

/-- An expression tree of the grammar, one type per level. A chain of operators of one level
is nested to the left: `a - b - c` is `bin (bin a - b) - c`. Each token carries the white
space written before it. -/
inductive Tree : Level → Type where
  /-- A numeral `text` after the white space `ws`. -/
  | num (ws text : List Char) : Tree .primary
  /-- The text `ws ( e wc )`. -/
  | paren (ws : List Char) (e : Tree .sum) (wc : List Char) : Tree .primary
  /-- A primary without a sign. -/
  | plain (e : Tree .primary) : Tree .unary
  /-- The text `ws - e`. -/
  | minus (ws : List Char) (e : Tree .primary) : Tree .unary
  /-- A term of one factor. -/
  | unary (e : Tree .unary) : Tree .term
  /-- The text `l ws op r` of a term. -/
  | mul (l : Tree .term) (ws : List Char) (op : MulOp) (r : Tree .unary) : Tree .term
  /-- A sum of one term. -/
  | term (e : Tree .term) : Tree .sum
  /-- The text `l ws op r` of a sum. -/
  | add (l : Tree .sum) (ws : List Char) (op : AddOp) (r : Tree .term) : Tree .sum

/-- The text of an expression tree. -/
def Tree.render : {l : Level} → Tree l → List Char
  | _, .num ws text => ws ++ text
  | _, .paren ws e wc => ws ++ '(' :: (e.render ++ (wc ++ [')']))
  | _, .plain e => e.render
  | _, .minus ws e => ws ++ '-' :: e.render
  | _, .unary e => e.render
  | _, .mul l ws op r => l.render ++ (ws ++ op.char :: r.render)
  | _, .term e => e.render
  | _, .add l ws op r => l.render ++ (ws ++ op.char :: r.render)

/-- The value of an expression tree in the arithmetic `A`. -/
def Tree.value {F : Type} (A : FloatOps F) : {l : Level} → Tree l → F
  | _, .num _ text => A.strtod text
  | _, .paren _ e _ => e.value A
  | _, .plain e => e.value A
  | _, .minus _ e => A.neg (e.value A)
  | _, .unary e => e.value A
  | _, .mul l _ op r => op.apply A (l.value A) (r.value A)
  | _, .term e => e.value A
  | _, .add l _ op r => op.apply A (l.value A) (r.value A)

/-- The tree is well formed: its white space is white space and its numerals are
numerals. -/
def Tree.well_formed : {l : Level} → Tree l → Bool
  | _, .num ws text => is_blank ws && is_numeral text
  | _, .paren ws e wc => is_blank ws && e.well_formed && is_blank wc
  | _, .plain e => e.well_formed
  | _, .minus ws e => is_blank ws && e.well_formed
  | _, .unary e => e.well_formed
  | _, .mul l ws _ r => l.well_formed && is_blank ws && r.well_formed
  | _, .term e => e.well_formed
  | _, .add l ws _ r => l.well_formed && is_blank ws && r.well_formed

/-- The tree is written with white space and with number texts the lexer reads as one
token each: as a well-formed tree, but a numeral may end with a point and may hold several
points, each right after a digit. -/
def Tree.lexable : {l : Level} → Tree l → Bool
  | _, .num ws text => is_blank ws && is_number_text text
  | _, .paren ws e wc => is_blank ws && e.lexable && is_blank wc
  | _, .plain e => e.lexable
  | _, .minus ws e => is_blank ws && e.lexable
  | _, .unary e => e.lexable
  | _, .mul l ws _ r => l.lexable && is_blank ws && r.lexable
  | _, .term e => e.lexable
  | _, .add l ws _ r => l.lexable && is_blank ws && r.lexable

/-- Every numeral of the tree is shorter than the token buffer. -/
def Tree.fits : {l : Level} → Tree l → Bool
  | _, .num _ text => decide (text.length < MAX_TOKEN_LENGTH)
  | _, .paren _ e _ => e.fits
  | _, .plain e => e.fits
  | _, .minus _ e => e.fits
  | _, .unary e => e.fits
  | _, .mul l _ _ r => l.fits && r.fits
  | _, .term e => e.fits
  | _, .add l _ _ r => l.fits && r.fits

/-- The kind of the last token of a tree. -/
def Tree.last_type : {l : Level} → Tree l → TOKEN_TYPE
  | _, .num _ _ => .NUMBER
  | _, .paren _ _ _ => .CLOSE_PARENTHESIS
  | _, .plain e => e.last_type
  | _, .minus _ e => e.last_type
  | _, .unary e => e.last_type
  | _, .mul _ _ _ r => r.last_type
  | _, .term e => e.last_type
  | _, .add _ _ _ r => r.last_type

/-- The text of the last token of a tree. -/
def Tree.last_text : {l : Level} → Tree l → List Char
  | _, .num _ text => text
  | _, .paren _ _ _ => [')']
  | _, .plain e => e.last_text
  | _, .minus _ e => e.last_text
  | _, .unary e => e.last_text
  | _, .mul _ _ _ r => r.last_text
  | _, .term e => e.last_text
  | _, .add _ _ _ r => r.last_text

/-- The state of the parser right after `next_token` has read the last token of the tree `x`
whose text starts at the cursor of `p`. -/
def Parser.after (p : Parser) {l : Level} (x : Tree l) : Parser :=
  p.advance x.last_type x.last_text x.render.length

/-- What the grammar level of the tree `x` does when the text at the cursor of `p0` is the
text of `x` followed by `tail`, and `next_token`, called after the last token of `x`, gives the
state `p'`: the first token of `x` is read, and the level returns the value of `x` in the state
`p'`. For a term and for a sum the loop of the level goes on from there. -/
def Tree.Parses {F : Type} (A : FloatOps F) : (l : Level) → Tree l → Prop
  | .primary, x => ∀ p0 tail p', p0.text = x.render ++ tail → ends_numeral tail = true →
      next_token (p0.after x) = .ok p' →
      ∃ p, next_token p0 = .ok p ∧ p.token_type ≠ .SUBSTRACTION_OP ∧
        Eventually (fun n => level4 A n p) (.ok (x.value A, p'))
  | .unary, x => ∀ p0 tail p', p0.text = x.render ++ tail → ends_numeral tail = true →
      next_token (p0.after x) = .ok p' →
      ∃ p, next_token p0 = .ok p ∧ Eventually (fun n => level3 A n p) (.ok (x.value A, p'))
  | .term, x => ∀ p0 tail p', p0.text = x.render ++ tail → ends_numeral tail = true →
      next_token (p0.after x) = .ok p' →
      ∀ r, Eventually (fun n => level2_loop A n (x.value A) p') r →
      ∃ p, next_token p0 = .ok p ∧ Eventually (fun n => level2 A n p) r
  | .sum, x => ∀ p0 tail p', p0.text = x.render ++ tail → ends_numeral tail = true →
      next_token (p0.after x) = .ok p' →
      p'.token_type ≠ .DIVISION_OP → p'.token_type ≠ .MULTIPLICATION_OP →
      ∀ r, Eventually (fun n => level1_loop A n (x.value A) p') r →
      ∃ p, next_token p0 = .ok p ∧ Eventually (fun n => level1 A n p) r

/-! ## Shorthands for the statements -/

/-- The four binary operators. -/
inductive BinOp where
  | plus
  | minus
  | times
  | over
  deriving DecidableEq, Repr

/-- The character of a binary operator. -/
def BinOp.char : BinOp → Char
  | .plus => '+'
  | .minus => '-'
  | .times => '*'
  | .over => '/'

/-- The operation of a binary operator. -/
def BinOp.apply {F : Type} (A : FloatOps F) : BinOp → F → F → F
  | .plus => A.add
  | .minus => A.sub
  | .times => A.mul
  | .over => A.div

/-- A numeral as a term, after the white space `ws`. -/
def Tree.lit (ws text : List Char) : Tree .term :=
  .unary (.plain (.num ws text))

/-- The tree of ` 2 + 3 * ( 4 - 1 ) / -2`. -/
def sample_tree : Tree .sum :=
  .add (.term (Tree.lit [' '] ['2'])) [' '] .plus
    (.mul
      (.mul (Tree.lit [' '] ['3']) [' '] .times
        (.plain (.paren [' ']
          (.add (.term (Tree.lit [' '] ['4'])) [' '] .minus (Tree.lit [' '] ['1'])) [' '])))
      [' '] .over (.minus [' '] (.num [] ['2'])))

/-! ## Token sequences and their layouts -/

/-- A token of the lexer: one of the six one-character tokens, or a number with its text. -/
inductive Token where
  | sign (c : Char)
  | number (text : List Char)
  deriving DecidableEq, Repr

/-- The characters of a token. -/
def Token.text : Token → List Char
  | .sign c => [c]
  | .number text => text

/-- The token is one the lexer produces. -/
def Token.valid : Token → Bool
  | .sign c => (token_of_char c).isSome
  | .number text => is_number_text text

/-- The token is a number. -/
def Token.is_number : Token → Bool
  | .sign _ => false
  | .number _ => true

/-- The text of a sequence of tokens, each written after its white space, with the white
space `trail` at the end. -/
def render_tokens : List (List Char × Token) → List Char → List Char
  | [], trail => trail
  | (ws, tok) :: rest, trail => ws ++ (tok.text ++ render_tokens rest trail)

/-- The white space of a layout is white space, its tokens are tokens of the lexer, and the
text after a number neither goes on the number nor starts with a point: white space never
falls inside a numeral, and two numbers are kept apart. -/
def valid_layout : List (List Char × Token) → List Char → Bool
  | [], trail => is_blank trail
  | (ws, tok) :: rest, trail =>
    is_blank ws && tok.valid && (!tok.is_number || ends_numeral (render_tokens rest trail)) &&
      valid_layout rest trail

/-- The tokens of a layout. -/
def layout_tokens (layout : List (List Char × Token)) : List Token :=
  layout.map Prod.snd

/-- Two states of the parser with the same current token whose texts at the cursor are two
layouts of one sequence of tokens. -/
def Similar (p q : Parser) : Prop :=
  p.token_type = q.token_type ∧ p.token_value = q.token_value ∧
    ∃ l1 l2 t1 t2, layout_tokens l1 = layout_tokens l2 ∧
      valid_layout l1 t1 = true ∧ valid_layout l2 t2 = true ∧
      p.text = render_tokens l1 t1 ∧ q.text = render_tokens l2 t2

/-- Two outcomes of a level with the same value, or the same exception, in similar states. -/
def SimilarOutcome {F : Type} : Outcome (F × Parser) → Outcome (F × Parser) → Prop
  | .ok r, .ok s => r.1 = s.1 ∧ Similar r.2 s.2
  | .throw e, .throw e' => e = e'
  | .out_of_fuel, .out_of_fuel => True
  | _, _ => False

/-! ## Arithmetic with signed zeros, infinities and not-a-number -/

/-- A value of floating-point arithmetic when nothing is rounded: a rational number, where
zero carries a sign, an infinity with its sign, or not-a-number. -/
inductive Ieee where
  | finite (q : ℚ) (minus_zero : Bool)
  | infinite (negative : Bool)
  | nan
  deriving DecidableEq

/-- The finite value `q`; the sign of zero is kept for zero only. -/
def Ieee.mk (q : ℚ) (minus_zero : Bool) : Ieee :=
  .finite q (decide (q = 0) && minus_zero)

/-- The sign of a value. -/
def Ieee.negative : Ieee → Bool
  | .finite q minus_zero => if q = 0 then minus_zero else decide (q < 0)
  | .infinite negative => negative
  | .nan => false

/-- Unary minus. -/
def Ieee.neg : Ieee → Ieee
  | .finite q minus_zero => Ieee.mk (-q) (!minus_zero)
  | .infinite negative => .infinite (!negative)
  | .nan => .nan

/-- Addition: a sum that is zero is `+0`, unless both operands are `-0`; opposite infinities
give not-a-number. -/
def Ieee.add : Ieee → Ieee → Ieee
  | .finite a ma, .finite b mb => Ieee.mk (a + b) (ma && mb)
  | .finite _ _, .infinite s => .infinite s
  | .infinite s, .finite _ _ => .infinite s
  | .infinite s, .infinite s' => if s = s' then .infinite s else .nan
  | _, _ => .nan

/-- Subtraction. -/
def Ieee.sub (a b : Ieee) : Ieee :=
  a.add b.neg

/-- Multiplication: the sign is the product of the signs; zero times an infinity is
not-a-number. -/
def Ieee.mul : Ieee → Ieee → Ieee
  | .nan, _ => .nan
  | _, .nan => .nan
  | .finite a ma, .finite b mb =>
    Ieee.mk (a * b) (xor (Ieee.finite a ma).negative (Ieee.finite b mb).negative)
  | .finite a ma, .infinite s =>
    if a = 0 then .nan else .infinite (xor (Ieee.finite a ma).negative s)
  | .infinite s, .finite b mb =>
    if b = 0 then .nan else .infinite (xor s (Ieee.finite b mb).negative)
  | .infinite s, .infinite s' => .infinite (xor s s')

/-- Division: a non-zero number divided by zero is an infinity whose sign is the product of
the signs; zero by zero and infinity by infinity are not-a-number. -/
def Ieee.div : Ieee → Ieee → Ieee
  | .nan, _ => .nan
  | _, .nan => .nan
  | .finite a ma, .finite b mb =>
    if b = 0 then
      if a = 0 then .nan
      else .infinite (xor (Ieee.finite a ma).negative (Ieee.finite b mb).negative)
    else Ieee.mk (a / b) (xor (Ieee.finite a ma).negative (Ieee.finite b mb).negative)
  | .finite a ma, .infinite s => Ieee.mk 0 (xor (Ieee.finite a ma).negative s)
  | .infinite s, .finite b mb => .infinite (xor s (Ieee.finite b mb).negative)
  | .infinite _, .infinite _ => .nan

/-- The arithmetic of the special values of floating point, without rounding: `strtod` reads
a numeral exactly, and `0.0f` is the positive zero. -/
def ieee : FloatOps Ieee :=
  { add := Ieee.add, sub := Ieee.sub, div := Ieee.div, mul := Ieee.mul, neg := Ieee.neg,
    strtod := fun text => .finite (rational_strtod text) false, zero := .finite 0 false }

/-! ## Exceptions raised inside a call -/

/-- A call of one of the levels, with its arguments. -/
inductive Call (F : Type) where
  | level1 (p : Parser)
  | level1_loop (ans : F) (p : Parser)
  | level2 (p : Parser)
  | level2_loop (ans : F) (p : Parser)
  | level3 (p : Parser)
  | level4 (p : Parser)

/-- The outcome of a call at a recursion budget. -/
def Call.run {F : Type} (A : FloatOps F) (n : Nat) : Call F → Outcome (F × Parser)
  | .level1 p => smallcalc.level1 A n p
  | .level1_loop ans p => smallcalc.level1_loop A n ans p
  | .level2 p => smallcalc.level2 A n p
  | .level2_loop ans p => smallcalc.level2_loop A n ans p
  | .level3 p => smallcalc.level3 A n p
  | .level4 p => smallcalc.level4 A n p

/-- The exception `e` is raised inside the call `c` run at the budget `n`: by a `throw` of
`next_token`, `get_number`, `eval_operator` or `level4` that is reached in `c` itself or in a
call made by `c`, everything before it having returned. Each rule is one `throw` or one call
of the source. -/
inductive Raises {F : Type} (A : FloatOps F) : Nat → Call F → Error → Prop where
  /-- In `level4`, `get_number` finds no number (line 97). -/
  | get_number {n : Nat} {p : Parser} (ho : p.token_type ≠ .OPEN_PARENTHESIS)
      (hn : p.token_type ≠ .NUMBER) : Raises A (n + 1) (.level4 p) .not_a_number
  /-- In `level4`, the `next_token` of `get_number` raises (line 93). -/
  | get_number_next {n : Nat} {p : Parser} {e : Error} (ho : p.token_type ≠ .OPEN_PARENTHESIS)
      (hn : p.token_type = .NUMBER) (hl : next_token p = .error e) :
      Raises A (n + 1) (.level4 p) e
  /-- In `level4`, the `next_token` after the open parenthesis raises (line 239). -/
  | level4_next {n : Nat} {p : Parser} {e : Error} (ho : p.token_type = .OPEN_PARENTHESIS)
      (hl : next_token p = .error e) : Raises A (n + 1) (.level4 p) e
  /-- In `level4`, the call of `level1` raises (line 240). -/
  | level4_inner {n : Nat} {p q : Parser} {e : Error} (ho : p.token_type = .OPEN_PARENTHESIS)
      (hl : next_token p = .ok q) (h : Raises A n (.level1 q) e) :
      Raises A (n + 1) (.level4 p) e
  /-- In `level4`, the close parenthesis is missing (line 242). -/
  | level4_missing {n : Nat} {p q : Parser} {r : F × Parser}
      (ho : p.token_type = .OPEN_PARENTHESIS) (hl : next_token p = .ok q)
      (h1 : smallcalc.level1 A n q = .ok r) (hc : r.2.token_type ≠ .CLOSE_PARENTHESIS) :
      Raises A (n + 1) (.level4 p) .missing_close
  /-- In `level4`, the `next_token` after the close parenthesis raises (line 244). -/
  | level4_close_next {n : Nat} {p q : Parser} {r : F × Parser} {e : Error}
      (ho : p.token_type = .OPEN_PARENTHESIS) (hl : next_token p = .ok q)
      (h1 : smallcalc.level1 A n q = .ok r) (hc : r.2.token_type = .CLOSE_PARENTHESIS)
      (hl' : next_token r.2 = .error e) : Raises A (n + 1) (.level4 p) e
  /-- In `level3`, the `next_token` after the minus sign raises (line 224). -/
  | level3_next {n : Nat} {p : Parser} {e : Error} (hs : p.token_type = .SUBSTRACTION_OP)
      (hl : next_token p = .error e) : Raises A (n + 1) (.level3 p) e
  /-- In `level3`, the call of `level4` after the minus sign raises (line 225). -/
  | level3_minus {n : Nat} {p q : Parser} {e : Error} (hs : p.token_type = .SUBSTRACTION_OP)
      (hl : next_token p = .ok q) (h : Raises A n (.level4 q) e) :
      Raises A (n + 1) (.level3 p) e
  /-- In `level3`, the call of `level4` without a minus sign raises (line 229). -/
  | level3_plain {n : Nat} {p : Parser} {e : Error} (hs : p.token_type ≠ .SUBSTRACTION_OP)
      (h : Raises A n (.level4 p) e) : Raises A (n + 1) (.level3 p) e
  /-- In `level2`, the first call of `level3` raises (line 207). -/
  | level2_first {n : Nat} {p : Parser} {e : Error} (h : Raises A n (.level3 p) e) :
      Raises A (n + 1) (.level2 p) e
  /-- In `level2`, the loop raises (lines 209-214). -/
  | level2_rest {n : Nat} {p : Parser} {r : F × Parser} {e : Error}
      (h3 : smallcalc.level3 A n p = .ok r) (h : Raises A n (.level2_loop r.1 r.2) e) :
      Raises A (n + 1) (.level2 p) e
  /-- In the loop of `level2`, `next_token` raises (line 211). -/
  | loop2_next {n : Nat} {ans : F} {p : Parser} {e : Error}
      (ht : p.token_type = .DIVISION_OP ∨ p.token_type = .MULTIPLICATION_OP)
      (hl : next_token p = .error e) : Raises A (n + 1) (.level2_loop ans p) e
  /-- In the loop of `level2`, the call of `level3` raises (line 212). -/
  | loop2_operand {n : Nat} {ans : F} {p q : Parser} {e : Error}
      (ht : p.token_type = .DIVISION_OP ∨ p.token_type = .MULTIPLICATION_OP)
      (hl : next_token p = .ok q) (h : Raises A n (.level3 q) e) :
      Raises A (n + 1) (.level2_loop ans p) e
  /-- In the loop of `level2`, `eval_operator` raises (line 212). -/
  | loop2_operator {n : Nat} {ans : F} {p q : Parser} {r : F × Parser} {e : Error}
      (ht : p.token_type = .DIVISION_OP ∨ p.token_type = .MULTIPLICATION_OP)
      (hl : next_token p = .ok q) (h3 : smallcalc.level3 A n q = .ok r)
      (he : eval_operator A p.token_type ans r.1 = .throw e) :
      Raises A (n + 1) (.level2_loop ans p) e
  /-- In the loop of `level2`, a later turn raises. -/
  | loop2_again {n : Nat} {ans a : F} {p q : Parser} {r : F × Parser} {e : Error}
      (ht : p.token_type = .DIVISION_OP ∨ p.token_type = .MULTIPLICATION_OP)
      (hl : next_token p = .ok q) (h3 : smallcalc.level3 A n q = .ok r)
      (he : eval_operator A p.token_type ans r.1 = .ok a)
      (h : Raises A n (.level2_loop a r.2) e) : Raises A (n + 1) (.level2_loop ans p) e
  /-- In `level1`, the first call of `level2` raises (line 192). -/
  | level1_first {n : Nat} {p : Parser} {e : Error} (h : Raises A n (.level2 p) e) :
      Raises A (n + 1) (.level1 p) e
  /-- In `level1`, the loop raises (lines 194-199). -/
  | level1_rest {n : Nat} {p : Parser} {r : F × Parser} {e : Error}
      (h2 : smallcalc.level2 A n p = .ok r) (h : Raises A n (.level1_loop r.1 r.2) e) :
      Raises A (n + 1) (.level1 p) e
  /-- In the loop of `level1`, `next_token` raises (line 196). -/
  | loop1_next {n : Nat} {ans : F} {p : Parser} {e : Error}
      (ht : p.token_type = .ADDITION_OP ∨ p.token_type = .SUBSTRACTION_OP)
      (hl : next_token p = .error e) : Raises A (n + 1) (.level1_loop ans p) e
  /-- In the loop of `level1`, the call of `level2` raises (line 197). -/
  | loop1_operand {n : Nat} {ans : F} {p q : Parser} {e : Error}
      (ht : p.token_type = .ADDITION_OP ∨ p.token_type = .SUBSTRACTION_OP)
      (hl : next_token p = .ok q) (h : Raises A n (.level2 q) e) :
      Raises A (n + 1) (.level1_loop ans p) e
  /-- In the loop of `level1`, `eval_operator` raises (line 197). -/
  | loop1_operator {n : Nat} {ans : F} {p q : Parser} {r : F × Parser} {e : Error}
      (ht : p.token_type = .ADDITION_OP ∨ p.token_type = .SUBSTRACTION_OP)
      (hl : next_token p = .ok q) (h2 : smallcalc.level2 A n q = .ok r)
      (he : eval_operator A p.token_type ans r.1 = .throw e) :
      Raises A (n + 1) (.level1_loop ans p) e
  /-- In the loop of `level1`, a later turn raises. -/
  | loop1_again {n : Nat} {ans a : F} {p q : Parser} {r : F × Parser} {e : Error}
      (ht : p.token_type = .ADDITION_OP ∨ p.token_type = .SUBSTRACTION_OP)
      (hl : next_token p = .ok q) (h2 : smallcalc.level2 A n q = .ok r)
      (he : eval_operator A p.token_type ans r.1 = .ok a)
      (h : Raises A n (.level1_loop a r.2) e) : Raises A (n + 1) (.level1_loop ans p) e

/-- The exception `e` is raised during the call `parse(expr)` run at the budget `n`: by the
first `next_token`, or inside the call of `level1`. -/
def RaisedInParse {F : Type} (A : FloatOps F) (n : Nat) (self : Parser) (expr : List Char)
    (e : Error) : Prop :=
  next_token (parse_init self expr) = .error e ∨
    ∃ q, next_token (parse_init self expr) = .ok q ∧ Raises A n (.level1 q) e

/-! ## The capacities of the arrays

The source writes `m_expr` with `strcpy` (line 74) and `token_value` with `strcpy` and with
`token_value[i++]` (lines 132-178), and never tests a length. A write past the end of an
array is undefined behaviour in C++, and the lists of the embedding follow the source only
while every text fits in its array. The statements about `parse` on a whole class of inputs
therefore assume that the inputs fit. -/

/-- The C string `expr` with its terminator fits in `m_expr`: the `strcpy` of `parse`
(line 74) stays inside the array `char m_expr[MAX_EXPRESSION_LENGTH]`. -/
def fits_m_expr (expr : List Char) : Bool :=
  decide ((expr.takeWhile fun c => c ≠ '\x00').length < MAX_EXPRESSION_LENGTH)

/-- A token text with its terminator fits in `token_value`: the writes of `next_token`
(lines 132-178) stay inside the array `char token_value[MAX_TOKEN_LENGTH]`. -/
def fits_token_value (text : List Char) : Bool :=
  decide (text.length < MAX_TOKEN_LENGTH)

/-- Every token of a layout fits in `token_value`. -/
def fits_layout (layout : List (List Char × Token)) : Bool :=
  layout.all fun e => fits_token_value e.2.text

/-! ## More fuel keeps an outcome -/

theorem Outcome.le_refl {α : Type} (x : Outcome α) : x.le x := Or.inr rfl

theorem Outcome.le_bind {α β : Type} {x y : Outcome α} {f g : α → Outcome β}
    (h : x.le y) (hf : ∀ a, (f a).le (g a)) : (x.bind f).le (y.bind g) := by
  rcases h with h | h
  · subst h; exact Or.inl rfl
  · subst h
    cases x with
    | ok a => exact hf a
    | throw e => exact Or.inr rfl
    | out_of_fuel => exact Or.inl rfl

theorem next_token_call_le {α : Type} (p : Parser) {f g : Parser → Outcome α}
    (hf : ∀ q, (f q).le (g q)) : (next_token_call p f).le (next_token_call p g) := by
  unfold next_token_call
  cases next_token p with
  | ok q => exact hf q
  | error e => exact Or.inr rfl

theorem level_step {F : Type} (A : FloatOps F) (n : Nat) :
    (∀ p, (level1 A n p).le (level1 A (n + 1) p)) ∧
    (∀ a p, (level1_loop A n a p).le (level1_loop A (n + 1) a p)) ∧
    (∀ p, (level2 A n p).le (level2 A (n + 1) p)) ∧
    (∀ a p, (level2_loop A n a p).le (level2_loop A (n + 1) a p)) ∧
    (∀ p, (level3 A n p).le (level3 A (n + 1) p)) ∧
    (∀ p, (level4 A n p).le (level4 A (n + 1) p)) := by
  induction n with
  | zero =>
    exact ⟨fun _ => Or.inl rfl, fun _ _ => Or.inl rfl, fun _ => Or.inl rfl,
      fun _ _ => Or.inl rfl, fun _ => Or.inl rfl, fun _ => Or.inl rfl⟩
  | succ n ih =>
    obtain ⟨h1, h1l, h2, h2l, h3, h4⟩ := ih
    refine ⟨?_, ?_, ?_, ?_, ?_, ?_⟩
    · intro p
      rw [level1, level1]
      exact Outcome.le_bind (h2 p) fun r => h1l r.1 r.2
    · intro a p
      rw [level1_loop, level1_loop]
      split
      · exact next_token_call_le p fun q => Outcome.le_bind (h2 q) fun r =>
          Outcome.le_bind (Outcome.le_refl _) fun b => h1l b r.2
      · exact Outcome.le_refl _
    · intro p
      rw [level2, level2]
      exact Outcome.le_bind (h3 p) fun r => h2l r.1 r.2
    · intro a p
      rw [level2_loop, level2_loop]
      split
      · exact next_token_call_le p fun q => Outcome.le_bind (h3 q) fun r =>
          Outcome.le_bind (Outcome.le_refl _) fun b => h2l b r.2
      · exact Outcome.le_refl _
    · intro p
      rw [level3, level3]
      split
      · exact next_token_call_le p fun q => Outcome.le_bind (h4 q) fun r => Outcome.le_refl _
      · exact h4 p
    · intro p
      rw [level4, level4]
      split
      · exact next_token_call_le p fun q => Outcome.le_bind (h1 q) fun r => Outcome.le_refl _
      · exact Outcome.le_refl _


theorem Outcome.le_trans {α : Type} {x y z : Outcome α} (h : x.le y) (k : y.le z) : x.le z := by
  rcases h with h | h
  · exact Or.inl h
  · subst h; exact k

/-- More fuel never changes an outcome other than `out_of_fuel`. -/
theorem level_mono {F : Type} (A : FloatOps F) {n m : Nat} (h : n ≤ m) :
    (∀ p, (level1 A n p).le (level1 A m p)) ∧
    (∀ a p, (level1_loop A n a p).le (level1_loop A m a p)) ∧
    (∀ p, (level2 A n p).le (level2 A m p)) ∧
    (∀ a p, (level2_loop A n a p).le (level2_loop A m a p)) ∧
    (∀ p, (level3 A n p).le (level3 A m p)) ∧
    (∀ p, (level4 A n p).le (level4 A m p)) := by
  induction h with
  | refl => exact ⟨fun _ => Outcome.le_refl _, fun _ _ => Outcome.le_refl _,
      fun _ => Outcome.le_refl _, fun _ _ => Outcome.le_refl _, fun _ => Outcome.le_refl _,
      fun _ => Outcome.le_refl _⟩
  | step _ ih =>
    obtain ⟨h1, h1l, h2, h2l, h3, h4⟩ := ih
    obtain ⟨s1, s1l, s2, s2l, s3, s4⟩ := level_step A _
    exact ⟨fun p => Outcome.le_trans (h1 p) (s1 p),
      fun a p => Outcome.le_trans (h1l a p) (s1l a p),
      fun p => Outcome.le_trans (h2 p) (s2 p),
      fun a p => Outcome.le_trans (h2l a p) (s2l a p),
      fun p => Outcome.le_trans (h3 p) (s3 p),
      fun p => Outcome.le_trans (h4 p) (s4 p)⟩

theorem parse_try_mono {F : Type} (A : FloatOps F) {n m : Nat} (h : n ≤ m) (self : Parser)
    (expr : List Char) : (parse_try A n self expr).le (parse_try A m self expr) :=
  next_token_call_le _ fun q => (level_mono A h).1 q

theorem parse_mono {F : Type} (A : FloatOps F) {n m : Nat} (h : n ≤ m) (self : Parser)
    (expr : List Char) : (parse A n self expr).le (parse A m self expr) := by
  unfold parse
  rcases parse_try_mono A h self expr with h | h
  · rw [h]; exact Or.inl rfl
  · rw [h]; exact Or.inr rfl

theorem returns_of_parse {F : Type} (A : FloatOps F) (self : Parser) (expr : List Char)
    (r : List String × F) (N : Nat) (h : parse A N self expr = .ok r) : Returns A self expr r := by
  refine ⟨N, fun n hn => ?_⟩
  rcases parse_mono A hn self expr with k | k
  · rw [h] at k; cases k
  · rw [← k, h]


/-! ## Every arithmetic follows the recorded operations -/

theorem Sym.result_ok {F : Type} (A : FloatOps F) (r : Sym × Parser) :
    Sym.result A (.ok r) = .ok (r.1.eval A, r.2) := rfl

theorem Sym.result_bind {F : Type} (A : FloatOps F) (x : Outcome (Sym × Parser))
    (f : Sym × Parser → Outcome (Sym × Parser)) (g : F × Parser → Outcome (F × Parser))
    (h : ∀ r, Sym.result A (f r) = g (r.1.eval A, r.2)) :
    Sym.result A (x.bind f) = (Sym.result A x).bind g := by
  cases x with
  | ok r => exact h r
  | throw e => rfl
  | out_of_fuel => rfl

theorem Sym.result_next_token_call {F : Type} (A : FloatOps F) (p : Parser)
    (f : Parser → Outcome (Sym × Parser)) (g : Parser → Outcome (F × Parser))
    (h : ∀ q, Sym.result A (f q) = g q) :
    Sym.result A (next_token_call p f) = next_token_call p g := by
  unfold next_token_call
  cases next_token p with
  | ok q => exact h q
  | error e => rfl

theorem Sym.result_eval_operator {F : Type} (A : FloatOps F) (op : TOKEN_TYPE) (a b : Sym)
    (f : Sym → Outcome (Sym × Parser)) (g : F → Outcome (F × Parser))
    (h : ∀ c, Sym.result A (f c) = g (c.eval A)) :
    Sym.result A ((eval_operator sym op a b).bind f) =
      (eval_operator A op (a.eval A) (b.eval A)).bind g := by
  cases op <;> first | rfl | exact h _

/-- Each level, run in the arithmetic `A`, does what it does in the recording arithmetic. -/
theorem level_sym {F : Type} (A : FloatOps F) (n : Nat) :
    (∀ p, level1 A n p = Sym.result A (level1 sym n p)) ∧
    (∀ a p, level1_loop A n (a.eval A) p = Sym.result A (level1_loop sym n a p)) ∧
    (∀ p, level2 A n p = Sym.result A (level2 sym n p)) ∧
    (∀ a p, level2_loop A n (a.eval A) p = Sym.result A (level2_loop sym n a p)) ∧
    (∀ p, level3 A n p = Sym.result A (level3 sym n p)) ∧
    (∀ p, level4 A n p = Sym.result A (level4 sym n p)) := by
  induction n with
  | zero => exact ⟨fun _ => rfl, fun _ _ => rfl, fun _ => rfl, fun _ _ => rfl, fun _ => rfl,
      fun _ => rfl⟩
  | succ n ih =>
    obtain ⟨h1, h1l, h2, h2l, h3, h4⟩ := ih
    refine ⟨?_, ?_, ?_, ?_, ?_, ?_⟩
    · intro p
      rw [level1, level1, h2]
      exact (Sym.result_bind A _ _ (fun r => level1_loop A n r.1 r.2)
        fun r => (h1l r.1 r.2).symm).symm
    · intro a p
      rw [level1_loop, level1_loop]
      split
      · refine (Sym.result_next_token_call A p _ _ fun q => ?_).symm
        rw [h2]
        exact Sym.result_bind A _ _
          (fun r => (eval_operator A p.token_type (a.eval A) r.1).bind
            fun c => level1_loop A n c r.2)
          fun r => Sym.result_eval_operator A _ a r.1 _ _ fun c => (h1l c r.2).symm
      · rfl
    · intro p
      rw [level2, level2, h3]
      exact (Sym.result_bind A _ _ (fun r => level2_loop A n r.1 r.2)
        fun r => (h2l r.1 r.2).symm).symm
    · intro a p
      rw [level2_loop, level2_loop]
      split
      · refine (Sym.result_next_token_call A p _ _ fun q => ?_).symm
        rw [h3]
        exact Sym.result_bind A _ _
          (fun r => (eval_operator A p.token_type (a.eval A) r.1).bind
            fun c => level2_loop A n c r.2)
          fun r => Sym.result_eval_operator A _ a r.1 _ _ fun c => (h2l c r.2).symm
      · rfl
    · intro p
      rw [level3, level3]
      split
      · refine (Sym.result_next_token_call A p _ _ fun q => ?_).symm
        rw [h4]
        exact Sym.result_bind A _ _ (fun r => Outcome.ok (A.neg r.1, r.2)) fun r => rfl
      · exact h4 p
    · intro p
      rw [level4, level4]
      split
      · refine (Sym.result_next_token_call A p _ _ fun q => ?_).symm
        rw [h1]
        refine Sym.result_bind A _ _
          (fun r => if r.2.token_type ≠ .CLOSE_PARENTHESIS then .throw .missing_close
            else next_token_call r.2 fun q => .ok (r.1, q)) fun r => ?_
        dsimp only
        split
        · rfl
        · exact Sym.result_next_token_call A _ _ _ fun q => rfl
      · unfold get_number
        split
        · exact (Sym.result_next_token_call A p (fun q => .ok (sym.strtod p.token_value, q))
            (fun q => .ok (A.strtod p.token_value, q)) fun q => rfl).symm
        · rfl

/-- The printed lines and the number `parse` returns, carried over to the arithmetic `A`. -/
theorem parse_sym {F : Type} (A : FloatOps F) (n : Nat) (self : Parser) (expr : List Char) :
    parse A n self expr = (parse sym n self expr).bind fun r => .ok (r.1, r.2.eval A) := by
  unfold parse parse_try next_token_call
  cases next_token (parse_init self expr) with
  | error e => rfl
  | ok q =>
    simp only
    rw [(level_sym A n).1 q]
    cases level1 sym n q <;> rfl

/-- A concrete run in the recording arithmetic settles the call in every arithmetic. -/
theorem returns_of_sym {F : Type} (A : FloatOps F) (self : Parser) (expr : List Char)
    (N : Nat) (out : List String) (v : Sym) (h : parse sym N self expr = .ok (out, v)) :
    Returns A self expr (out, v.eval A) :=
  returns_of_parse A self expr _ N (by rw [parse_sym, h]; rfl)

/-- A concrete run that exhausts its budget, in every arithmetic. -/
theorem out_of_fuel_of_sym {F : Type} (A : FloatOps F) (self : Parser) (expr : List Char)
    (n : Nat) (h : parse sym n self expr = .out_of_fuel) :
    parse A n self expr = .out_of_fuel := by
  rw [parse_sym, h]; rfl

/-! ## The lexer on a text -/

theorem isspace_space : isspace ' ' = true := rfl

theorem isspace_not_digit {c : Char} (h : isspace c = true) : isdigit c = false := by
  simp only [isspace, Bool.or_eq_true, decide_eq_true_eq] at h
  rcases h with ((((h | h) | h) | h) | h) | h <;> subst h <;> decide

theorem isspace_not_token {c : Char} (h : isspace c = true) : token_of_char c = none := by
  simp only [isspace, Bool.or_eq_true, decide_eq_true_eq] at h
  rcases h with ((((h | h) | h) | h) | h) | h <;> subst h <;> decide

theorem isspace_ne_nul {c : Char} (h : isspace c = true) : c ≠ '\x00' := by
  rintro rfl; revert h; decide

theorem isspace_ne_point {c : Char} (h : isspace c = true) : c ≠ '.' := by
  rintro rfl; revert h; decide

theorem isdigit_not_space {c : Char} (h : isdigit c = true) : isspace c = false := by
  cases k : isspace c with
  | false => rfl
  | true => rw [isspace_not_digit k] at h; cases h

theorem token_not_space {c : Char} {t : TOKEN_TYPE} (h : token_of_char c = some t) :
    isspace c = false := by
  cases k : isspace c with
  | false => rfl
  | true => rw [isspace_not_token k] at h; cases h

theorem token_not_digit {c : Char} {t : TOKEN_TYPE} (h : token_of_char c = some t) :
    isdigit c = false := by
  unfold token_of_char at h
  repeat' split at h
  all_goals first | (subst_vars; decide) | cases h

theorem token_ne_point {c : Char} {t : TOKEN_TYPE} (h : token_of_char c = some t) :
    c ≠ '.' := by
  rintro rfl
  rw [show token_of_char '.' = none from by decide] at h
  cases h

theorem isdigit_ne_point {c : Char} (h : isdigit c = true) : c ≠ '.' := by
  rintro rfl; revert h; decide

theorem isdigit_ne_nul {c : Char} (h : isdigit c = true) : c ≠ '\x00' := by
  rintro rfl; revert h; decide

theorem isdigit_not_token {c : Char} (h : isdigit c = true) : token_of_char c = none := by
  cases k : token_of_char c with
  | none => rfl
  | some t => rw [token_not_digit k] at h; cases h

theorem skip_whitespace_append (ws rest : List Char) (hws : is_blank ws = true)
    (hrest : isspace (rest.headD '\x00') = false) :
    skip_whitespace (ws ++ rest) = ws.length := by
  induction ws with
  | nil =>
    cases rest with
    | nil => rfl
    | cons c cs =>
      simp only [List.headD_cons] at hrest
      simp [skip_whitespace, hrest]
  | cons c cs ih =>
    simp only [is_blank, List.all_cons, Bool.and_eq_true] at hws
    rw [List.cons_append, skip_whitespace]
    simp only [hws.1, if_true, List.length_cons]
    rw [ih hws.2]

theorem char_at_of_drop (e : List Char) (i : Nat) (rest : List Char) (h : e.drop i = rest) :
    char_at e i = rest.headD '\x00' := by
  subst h
  unfold char_at
  rw [List.getD_eq_getElem?_getD]
  cases k : e.drop i with
  | nil =>
    have : e.length ≤ i := List.drop_eq_nil_iff.mp k
    simp [List.getElem?_eq_none this]
  | cons c cs =>
    have h0 : (e.drop i)[0]? = some c := by rw [k]; simp
    rw [List.getElem?_drop] at h0
    simp only [Nat.add_zero] at h0
    simp [h0]

/-- The method `next_token` on a text that starts with the white space `ws`. -/
theorem next_token_eq_lex (p : Parser) (ws rest : List Char) (h : p.text = ws ++ rest)
    (hws : is_blank ws = true) (hrest : isspace (rest.headD '\x00') = false) :
    next_token p = lex p ws.length rest := by
  have hskip : skip_whitespace (p.m_expr.drop p.m_cursor) = ws.length := by
    rw [show p.m_expr.drop p.m_cursor = ws ++ rest from h]
    exact skip_whitespace_append ws rest hws hrest
  have hdrop : p.m_expr.drop (p.m_cursor + ws.length) = rest := by
    rw [← List.drop_drop, show p.m_expr.drop p.m_cursor = ws ++ rest from h]
    simp
  have hc := char_at_of_drop _ _ _ hdrop
  unfold next_token
  simp only [hskip, hc, hdrop]
  have hnul : isdigit '\x00' = false := by decide
  cases rest with
  | nil => simp [lex, hnul]
  | cons c cs =>
    simp only [List.headD_cons, lex, token_of_char, Parser.advance, Nat.add_assoc]
    repeat' split
    all_goals first | rfl | simp_all

/-! ## The steps of the levels -/

theorem eventually_of_succ {α : Type} {f : Nat → Outcome α} {r : Outcome α}
    (h : Eventually (fun n => f (n + 1)) r) : Eventually f r := by
  obtain ⟨N, hN⟩ := h
  refine ⟨N + 1, fun n hn => ?_⟩
  obtain ⟨m, rfl⟩ : ∃ m, n = m + 1 := ⟨n - 1, by omega⟩
  exact hN m (by omega)

theorem eventually_const {α : Type} (r : Outcome α) : Eventually (fun _ => r) r :=
  ⟨0, fun _ _ => rfl⟩

theorem eventually_bind {α β : Type} {f : Nat → Outcome α} {g : Nat → α → Outcome β}
    {a : α} {r : Outcome β} (hf : Eventually f (.ok a)) (hg : Eventually (fun n => g n a) r) :
    Eventually (fun n => (f n).bind (g n)) r := by
  obtain ⟨N, hN⟩ := hf
  obtain ⟨M, hM⟩ := hg
  refine ⟨max N M, fun n hn => ?_⟩
  show (f n).bind (g n) = r
  rw [hN n (le_trans (le_max_left _ _) hn)]
  exact hM n (le_trans (le_max_right _ _) hn)

theorem next_token_call_ok {α : Type} {p q : Parser} (h : next_token p = .ok q)
    (k : Parser → Outcome α) : next_token_call p k = k q := by
  unfold next_token_call; rw [h]

theorem next_token_call_error {α : Type} {p : Parser} {e : Error} (h : next_token p = .error e)
    (k : Parser → Outcome α) : next_token_call p k = .throw e := by
  unfold next_token_call; rw [h]

/-- The rule of `level1`: a term, then the loop. -/
theorem level1_rule {F : Type} (A : FloatOps F) {p q : Parser} {v : F}
    {r : Outcome (F × Parser)} (h2 : Eventually (fun n => level2 A n p) (.ok (v, q)))
    (hl : Eventually (fun n => level1_loop A n v q) r) :
    Eventually (fun n => level1 A n p) r :=
  eventually_of_succ (by simp only [level1]; exact eventually_bind h2 hl)

/-- The rule of `level2`: a unary, then the loop. -/
theorem level2_rule {F : Type} (A : FloatOps F) {p q : Parser} {v : F}
    {r : Outcome (F × Parser)} (h3 : Eventually (fun n => level3 A n p) (.ok (v, q)))
    (hl : Eventually (fun n => level2_loop A n v q) r) :
    Eventually (fun n => level2 A n p) r :=
  eventually_of_succ (by simp only [level2]; exact eventually_bind h3 hl)

/-- The loop of `level1` ends on a token that is neither `+` nor `-`. -/
theorem level1_loop_exit {F : Type} (A : FloatOps F) (ans : F) {p : Parser}
    (ha : p.token_type ≠ .ADDITION_OP) (hs : p.token_type ≠ .SUBSTRACTION_OP) :
    Eventually (fun n => level1_loop A n ans p) (.ok (ans, p)) :=
  eventually_of_succ (by
    simp only [level1_loop, ha, hs, or_self, if_false]
    exact eventually_const _)

/-- The loop of `level2` ends on a token that is neither `/` nor `*`. -/
theorem level2_loop_exit {F : Type} (A : FloatOps F) (ans : F) {p : Parser}
    (hd : p.token_type ≠ .DIVISION_OP) (hm : p.token_type ≠ .MULTIPLICATION_OP) :
    Eventually (fun n => level2_loop A n ans p) (.ok (ans, p)) :=
  eventually_of_succ (by
    simp only [level2_loop, hd, hm, or_self, if_false]
    exact eventually_const _)

/-- One turn of the loop of `level1`. -/
theorem level1_loop_rule {F : Type} (A : FloatOps F) (op : AddOp) (ans : F) {p q q' : Parser}
    {v : F} {r : Outcome (F × Parser)} (ht : p.token_type = op.token)
    (hn : next_token p = .ok q) (h2 : Eventually (fun n => level2 A n q) (.ok (v, q')))
    (hl : Eventually (fun n => level1_loop A n (op.apply A ans v) q') r) :
    Eventually (fun n => level1_loop A n ans p) r := by
  refine eventually_of_succ ?_
  have hc : p.token_type = .ADDITION_OP ∨ p.token_type = .SUBSTRACTION_OP := by
    cases op
    · exact Or.inl ht
    · exact Or.inr ht
  simp only [level1_loop, hc, if_true, next_token_call_ok hn]
  refine eventually_bind h2 ?_
  have he : eval_operator A p.token_type ans v = .ok (op.apply A ans v) := by
    rw [ht]; cases op <;> rfl
  simp only [he, Outcome.bind]
  exact hl

/-- One turn of the loop of `level2`. -/
theorem level2_loop_rule {F : Type} (A : FloatOps F) (op : MulOp) (ans : F) {p q q' : Parser}
    {v : F} {r : Outcome (F × Parser)} (ht : p.token_type = op.token)
    (hn : next_token p = .ok q) (h3 : Eventually (fun n => level3 A n q) (.ok (v, q')))
    (hl : Eventually (fun n => level2_loop A n (op.apply A ans v) q') r) :
    Eventually (fun n => level2_loop A n ans p) r := by
  refine eventually_of_succ ?_
  have hc : p.token_type = .DIVISION_OP ∨ p.token_type = .MULTIPLICATION_OP := by
    cases op
    · exact Or.inr ht
    · exact Or.inl ht
  simp only [level2_loop, hc, if_true, next_token_call_ok hn]
  refine eventually_bind h3 ?_
  have he : eval_operator A p.token_type ans v = .ok (op.apply A ans v) := by
    rw [ht]; cases op <;> rfl
  simp only [he, Outcome.bind]
  exact hl

/-- The rule of `level3` on a minus sign. -/
theorem level3_minus_rule {F : Type} (A : FloatOps F) {p q q' : Parser} {v : F}
    (ht : p.token_type = .SUBSTRACTION_OP) (hn : next_token p = .ok q)
    (h4 : Eventually (fun n => level4 A n q) (.ok (v, q'))) :
    Eventually (fun n => level3 A n p) (.ok (A.neg v, q')) := by
  refine eventually_of_succ ?_
  simp only [level3, ht, if_true, next_token_call_ok hn]
  exact eventually_bind h4 (eventually_const _)

/-- The rule of `level3` on any other token. -/
theorem level3_plain_rule {F : Type} (A : FloatOps F) {p : Parser}
    {r : Outcome (F × Parser)} (ht : p.token_type ≠ .SUBSTRACTION_OP)
    (h4 : Eventually (fun n => level4 A n p) r) :
    Eventually (fun n => level3 A n p) r := by
  refine eventually_of_succ ?_
  simp only [level3, ht, if_false]
  exact h4

/-- The rule of `level4` on a number. -/
theorem level4_number_rule {F : Type} (A : FloatOps F) {p q : Parser}
    (ht : p.token_type = .NUMBER) (hn : next_token p = .ok q) :
    Eventually (fun n => level4 A n p) (.ok (A.strtod p.token_value, q)) := by
  refine eventually_of_succ ?_
  simp only [level4, ht, get_number, if_true, next_token_call_ok hn]
  exact eventually_const _

/-- The rule of `level4` on an open parenthesis that is closed. -/
theorem level4_paren_rule {F : Type} (A : FloatOps F) {p q q' q'' : Parser} {v : F}
    (ht : p.token_type = .OPEN_PARENTHESIS) (hn : next_token p = .ok q)
    (h1 : Eventually (fun n => level1 A n q) (.ok (v, q')))
    (hc : q'.token_type = .CLOSE_PARENTHESIS) (hn' : next_token q' = .ok q'') :
    Eventually (fun n => level4 A n p) (.ok (v, q'')) := by
  refine eventually_of_succ ?_
  simp only [level4, ht, if_true, next_token_call_ok hn]
  refine eventually_bind h1 ?_
  simp only [hc, ne_eq, not_true_eq_false, if_false, next_token_call_ok hn']
  exact eventually_const _

/-! ## The lexer on the tokens of a text -/

theorem scan_number_nondigit (c : Char) (cs : List Char) (h : isdigit c = false) :
    scan_number (c :: cs) = [] := by
  cases cs <;> simp [scan_number, h]

theorem scan_number_single (c : Char) (h : isdigit c = true) : scan_number [c] = [c] := by
  simp [scan_number, h]

theorem scan_number_point (c : Char) (ds : List Char) (h : isdigit c = true) :
    scan_number (c :: '.' :: ds) = c :: '.' :: scan_number ds := by
  simp [scan_number, h]

theorem scan_number_next (c d : Char) (ds : List Char) (h : isdigit c = true) (hd : d ≠ '.') :
    scan_number (c :: d :: ds) = c :: scan_number (d :: ds) := by
  simp [scan_number, h, hd]

theorem scan_number_digits (ds tail : List Char) (hd : ds.all isdigit = true)
    (ht : ends_numeral tail = true) : scan_number (ds ++ tail) = ds := by
  induction ds with
  | nil =>
    cases tail with
    | nil => rfl
    | cons c cs =>
      simp only [ends_numeral, Bool.and_eq_true, Bool.not_eq_true'] at ht
      exact scan_number_nondigit c cs ht.1
  | cons c cs ih =>
    simp only [List.all_cons, Bool.and_eq_true] at hd
    have ih := ih hd.2
    rw [List.cons_append]
    cases hr : cs ++ tail with
    | nil =>
      have : cs = [] := (List.append_eq_nil.mp hr).1
      rw [this, scan_number_single c hd.1]
    | cons d ds =>
      have hne : d ≠ '.' := by
        cases cs with
        | nil =>
          rw [List.nil_append] at hr
          subst hr
          simp only [ends_numeral, Bool.and_eq_true, Bool.not_eq_true', bne_iff_ne] at ht
          exact ht.2
        | cons d' cs' =>
          rw [List.cons_append] at hr
          injection hr with h1 h2
          subst h1
          simp only [List.all_cons, Bool.and_eq_true] at hd
          exact isdigit_ne_point hd.2.1
      rw [scan_number_next c d ds hd.1 hne, ← hr, ih]

theorem is_numeral_single (c : Char) : is_numeral [c] = isdigit c := by
  simp [is_numeral]

theorem is_numeral_point (c : Char) (ds : List Char) :
    is_numeral (c :: '.' :: ds) = (isdigit c && (!ds.isEmpty && ds.all isdigit)) := by
  simp [is_numeral]

theorem is_numeral_next (c d : Char) (ds : List Char) (hd : d ≠ '.') :
    is_numeral (c :: d :: ds) = (isdigit c && is_numeral (d :: ds)) := by
  rw [is_numeral]; simp [hd]

theorem is_numeral_head {t : List Char} (h : is_numeral t = true) :
    ∃ c cs, t = c :: cs ∧ isdigit c = true := by
  cases t with
  | nil => cases h
  | cons c cs =>
    refine ⟨c, cs, rfl, ?_⟩
    cases cs with
    | nil => rwa [is_numeral_single] at h
    | cons d ds =>
      by_cases hd : d = '.'
      · subst hd
        rw [is_numeral_point, Bool.and_eq_true] at h
        exact h.1
      · rw [is_numeral_next c d ds hd, Bool.and_eq_true] at h
        exact h.1

theorem scan_number_numeral (t tail : List Char) (hn : is_numeral t = true)
    (ht : ends_numeral tail = true) : scan_number (t ++ tail) = t := by
  induction t with
  | nil => cases hn
  | cons c cs ih =>
    cases cs with
    | nil =>
      rw [is_numeral_single] at hn
      exact scan_number_digits [c] tail (by simp [hn]) ht
    | cons d ds =>
      rw [List.cons_append, List.cons_append]
      by_cases hd : d = '.'
      · subst hd
        rw [is_numeral_point, Bool.and_eq_true, Bool.and_eq_true] at hn
        rw [scan_number_point c _ hn.1, scan_number_digits ds tail hn.2.2 ht]
      · rw [is_numeral_next c d ds hd, Bool.and_eq_true] at hn
        rw [scan_number_next c d _ hn.1 hd]
        have := ih hn.2
        rw [List.cons_append] at this
        rw [this]

theorem Parser.advance_text (p : Parser) (t : TOKEN_TYPE) (v a b : List Char) (k : Nat)
    (h : p.text = a ++ b) (hk : k = a.length) : (p.advance t v k).text = b := by
  subst hk
  unfold Parser.text Parser.advance at *
  simp only
  rw [← List.drop_drop, h]
  simp

theorem Parser.advance_advance (p : Parser) (t t' : TOKEN_TYPE) (v v' : List Char) (k k' : Nat) :
    (p.advance t v k).advance t' v' k' = p.advance t' v' (k + k') := by
  simp [Parser.advance, Nat.add_assoc]

/-- The method `next_token` on white space followed by a one-character token. -/
theorem next_token_char (p : Parser) (ws : List Char) (c : Char) (rest : List Char)
    (t : TOKEN_TYPE) (h : p.text = ws ++ c :: rest) (hws : is_blank ws = true)
    (hc : token_of_char c = some t) : next_token p = .ok (p.advance t [c] (ws.length + 1)) := by
  rw [next_token_eq_lex p ws (c :: rest) h hws (token_not_space hc)]
  simp [lex, hc]

/-- The method `next_token` on white space followed by a numeral. -/
theorem next_token_numeral (p : Parser) (ws text tail : List Char)
    (h : p.text = ws ++ (text ++ tail)) (hws : is_blank ws = true)
    (hn : is_numeral text = true) (ht : ends_numeral tail = true) :
    next_token p = .ok (p.advance .NUMBER text (ws.length + text.length)) := by
  obtain ⟨c, cs, rfl, hc⟩ := is_numeral_head hn
  rw [next_token_eq_lex p ws (c :: cs ++ tail) h hws (isdigit_not_space hc)]
  have hs := scan_number_numeral (c :: cs) tail hn ht
  rw [List.cons_append] at hs ⊢
  simp only [lex, isdigit_not_token hc, hc, if_true, hs]

/-- The method `next_token` on white space up to the terminator: only the cursor moves. -/
theorem next_token_end (p : Parser) (ws : List Char) (h : p.text = ws)
    (hws : is_blank ws = true) :
    next_token p = .ok { p with m_cursor := p.m_cursor + ws.length } := by
  rw [next_token_eq_lex p ws [] (by simpa using h) hws (by decide)]
  rfl

/-! ## The lexer on the text of a number -/

theorem is_number_text_single (c : Char) : is_number_text [c] = isdigit c := by
  simp [is_number_text]

theorem is_number_text_point (c : Char) (ds : List Char) :
    is_number_text (c :: '.' :: ds) = (isdigit c && (ds.isEmpty || is_number_text ds)) := by
  rw [is_number_text]; simp

theorem is_number_text_next (c d : Char) (ds : List Char) (hd : d ≠ '.') :
    is_number_text (c :: d :: ds) = (isdigit c && is_number_text (d :: ds)) := by
  rw [is_number_text]; simp [hd]

theorem is_number_text_head {t : List Char} (h : is_number_text t = true) :
    ∃ c cs, t = c :: cs ∧ isdigit c = true := by
  cases t with
  | nil => cases h
  | cons c cs =>
    refine ⟨c, cs, rfl, ?_⟩
    cases cs with
    | nil => rwa [is_number_text_single] at h
    | cons d ds =>
      by_cases hd : d = '.'
      · subst hd
        rw [is_number_text_point, Bool.and_eq_true] at h
        exact h.1
      · rw [is_number_text_next c d ds hd, Bool.and_eq_true] at h
        exact h.1

theorem scan_number_text (t tail : List Char) (hn : is_number_text t = true)
    (ht : ends_numeral tail = true) : scan_number (t ++ tail) = t := by
  generalize hl : t.length = n
  induction n using Nat.strong_induction_on generalizing t with
  | _ n ih =>
    cases t with
    | nil => cases hn
    | cons c cs =>
      cases cs with
      | nil =>
        rw [is_number_text_single] at hn
        exact scan_number_digits [c] tail (by simp [hn]) ht
      | cons d ds =>
        rw [List.cons_append, List.cons_append]
        by_cases hd : d = '.'
        · subst hd
          rw [is_number_text_point, Bool.and_eq_true, Bool.or_eq_true] at hn
          rw [scan_number_point c _ hn.1]
          rcases hn.2 with he | hr
          · have : ds = [] := by simpa using he
            subst this
            have h0 := scan_number_digits [] tail rfl ht
            rw [List.nil_append] at h0 ⊢
            rw [h0]
          · rw [ih ds.length (by subst hl; simp; omega) ds hr rfl]
        · rw [is_number_text_next c d ds hd, Bool.and_eq_true] at hn
          rw [scan_number_next c d _ hn.1 hd]
          have := ih (d :: ds).length (by subst hl; simp) (d :: ds) hn.2 rfl
          rw [List.cons_append] at this
          rw [this]

theorem is_number_text_chars (t : List Char) (h : is_number_text t = true) :
    ∀ c ∈ t, isdigit c = true ∨ c = '.' := by
  generalize hl : t.length = n
  induction n using Nat.strong_induction_on generalizing t with
  | _ n ih =>
    cases t with
    | nil => cases h
    | cons c cs =>
      cases cs with
      | nil =>
        rw [is_number_text_single] at h
        intro x hm
        rw [List.mem_singleton] at hm
        exact Or.inl (hm ▸ h)
      | cons d ds =>
        by_cases hd : d = '.'
        · subst hd
          rw [is_number_text_point, Bool.and_eq_true, Bool.or_eq_true] at h
          intro x hm
          rcases List.mem_cons.mp hm with rfl | hm
          · exact Or.inl h.1
          · rcases List.mem_cons.mp hm with rfl | hm
            · exact Or.inr rfl
            · rcases h.2 with he | hr
              · have : ds = [] := by simpa using he
                subst this
                cases hm
              · exact ih ds.length (by subst hl; simp; omega) ds hr rfl x hm
        · rw [is_number_text_next c d ds hd, Bool.and_eq_true] at h
          intro x hm
          rcases List.mem_cons.mp hm with rfl | hm
          · exact Or.inl h.1
          · exact ih (d :: ds).length (by subst hl; simp) (d :: ds) h.2 rfl x hm

/-- The method `next_token` on white space followed by the text of a number. -/
theorem next_token_number (p : Parser) (ws text tail : List Char)
    (h : p.text = ws ++ (text ++ tail)) (hws : is_blank ws = true)
    (hn : is_number_text text = true) (ht : ends_numeral tail = true) :
    next_token p = .ok (p.advance .NUMBER text (ws.length + text.length)) := by
  obtain ⟨c, cs, rfl, hc⟩ := is_number_text_head hn
  rw [next_token_eq_lex p ws (c :: cs ++ tail) h hws (isdigit_not_space hc)]
  have hs := scan_number_text (c :: cs) tail hn ht
  rw [List.cons_append] at hs ⊢
  simp only [lex, isdigit_not_token hc, hc, if_true, hs]

/-! ## Well-formed expressions are evaluated -/

theorem add_op_token (op : AddOp) : token_of_char op.char = some op.token := by
  cases op <;> rfl

theorem mul_op_token (op : MulOp) : token_of_char op.char = some op.token := by
  cases op <;> rfl

theorem ends_numeral_token (ws : List Char) (c : Char) (rest : List Char) (t : TOKEN_TYPE)
    (hws : is_blank ws = true) (hc : token_of_char c = some t) :
    ends_numeral (ws ++ c :: rest) = true := by
  cases ws with
  | nil =>
    simp only [List.nil_append, ends_numeral, Bool.and_eq_true, Bool.not_eq_true', bne_iff_ne]
    exact ⟨token_not_digit hc, token_ne_point hc⟩
  | cons d ds =>
    simp only [is_blank, List.all_cons, Bool.and_eq_true] at hws
    simp only [List.cons_append, ends_numeral, Bool.and_eq_true, Bool.not_eq_true', bne_iff_ne]
    exact ⟨isspace_not_digit hws.1, isspace_ne_point hws.1⟩

theorem ends_numeral_blank (ws : List Char) (hws : is_blank ws = true) :
    ends_numeral ws = true := by
  cases ws with
  | nil => rfl
  | cons d ds =>
    simp only [is_blank, List.all_cons, Bool.and_eq_true] at hws
    simp only [ends_numeral, Bool.and_eq_true, Bool.not_eq_true', bne_iff_ne]
    exact ⟨isspace_not_digit hws.1, isspace_ne_point hws.1⟩

/-- Every tree the lexer can read is parsed by its level. -/
theorem Tree.parses {F : Type} (A : FloatOps F) {l : Level} (x : Tree l)
    (hx : x.lexable = true) : Tree.Parses A l x := by
  induction x with
  | num ws text =>
    simp only [Tree.lexable, Bool.and_eq_true] at hx
    intro p0 tail p' ht he hn
    have hlex := next_token_number p0 ws text tail (by rw [ht]; simp [Tree.render])
      hx.1 hx.2 he
    refine ⟨_, hlex, by simp [Parser.advance], ?_⟩
    have hn' : next_token (p0.advance .NUMBER text (ws.length + text.length)) = .ok p' := by
      rw [← hn]; simp [Parser.after, Tree.render, Tree.last_type, Tree.last_text]
    exact level4_number_rule A rfl hn'
  | paren ws e wc ih =>
    simp only [Tree.lexable, Bool.and_eq_true] at hx
    intro p0 tail p' ht he hn
    have h0 := next_token_char p0 ws '(' (e.render ++ (wc ++ ')' :: tail)) _
      (by rw [ht]; simp [Tree.render]) hx.1.1 rfl
    have ht1 := Parser.advance_text p0 .OPEN_PARENTHESIS ['('] (ws ++ ['('])
      (e.render ++ (wc ++ ')' :: tail)) (ws.length + 1) (by rw [ht]; simp [Tree.render])
      (by simp)
    have ht2 := Parser.advance_text (p0.advance .OPEN_PARENTHESIS ['('] (ws.length + 1))
      e.last_type e.last_text e.render (wc ++ ')' :: tail) _ ht1 rfl
    have hclose := next_token_char _ wc ')' tail _ ht2 hx.2 rfl
    obtain ⟨p, hp, h1⟩ := ih hx.1.2 _ _ _ ht1 (ends_numeral_token wc ')' tail _ hx.2 rfl)
      hclose (by simp [Parser.advance]) (by simp [Parser.advance]) _
      (level1_loop_exit A _ (by simp [Parser.advance]) (by simp [Parser.advance]))
    refine ⟨_, h0, by simp [Parser.advance], ?_⟩
    refine level4_paren_rule A rfl hp h1 rfl ?_
    rw [← hn]
    congr 1
    simp only [Parser.after, Parser.advance_advance, Tree.render, Tree.last_type,
      Tree.last_text, List.length_append, List.length_cons, List.length_nil]
    congr 1
    omega
  | plain e ih =>
    intro p0 tail p' ht he hn
    obtain ⟨p, hp, hne, h4⟩ := ih hx p0 tail p' ht he hn
    exact ⟨p, hp, level3_plain_rule A hne h4⟩
  | minus ws e ih =>
    simp only [Tree.lexable, Bool.and_eq_true] at hx
    intro p0 tail p' ht he hn
    have h0 := next_token_char p0 ws '-' (e.render ++ tail) _
      (by rw [ht]; simp [Tree.render]) hx.1 rfl
    have ht1 := Parser.advance_text p0 .SUBSTRACTION_OP ['-'] (ws ++ ['-'])
      (e.render ++ tail) (ws.length + 1) (by rw [ht]; simp [Tree.render]) (by simp)
    obtain ⟨p, hp, _, h4⟩ := ih hx.2 _ tail p' ht1 he (by
      rw [← hn]
      congr 1
      simp only [Parser.after, Parser.advance_advance, Tree.render, Tree.last_type,
        Tree.last_text, List.length_append, List.length_cons, List.length_nil]
      congr 1
      omega)
    exact ⟨_, h0, level3_minus_rule A rfl hp h4⟩
  | unary e ih =>
    intro p0 tail p' ht he hn r hl
    obtain ⟨p, hp, h3⟩ := ih hx p0 tail p' ht he hn
    exact ⟨p, hp, level2_rule A h3 hl⟩
  | mul l ws op r ihl ihr =>
    simp only [Tree.lexable, Bool.and_eq_true] at hx
    intro p0 tail p' ht he hn r0 hl
    have htl : p0.text = l.render ++ (ws ++ op.char :: (r.render ++ tail)) := by
      rw [ht]; simp [Tree.render]
    have ht1 := Parser.advance_text p0 l.last_type l.last_text l.render _ _ htl rfl
    have hop := next_token_char _ ws op.char (r.render ++ tail) _ ht1 hx.1.2
      (mul_op_token op)
    have ht2 := Parser.advance_text (p0.after l) op.token [op.char] (ws ++ [op.char])
      (r.render ++ tail) (ws.length + 1) (by rw [Parser.after, ht1]; simp) (by simp)
    obtain ⟨q, hq, h3⟩ := ihr hx.2 _ tail p' ht2 he (by
      rw [← hn]
      congr 1
      simp only [Parser.after, Parser.advance_advance, Tree.render, Tree.last_type,
        Tree.last_text, List.length_append, List.length_cons, List.length_nil]
      congr 1
      omega)
    exact ihl hx.1.1 p0 _ _ htl (ends_numeral_token ws op.char _ _ hx.1.2 (mul_op_token op))
      hop r0 (level2_loop_rule A op _ rfl hq h3 hl)
  | term e ih =>
    intro p0 tail p' ht he hn hd hm r hl
    obtain ⟨p, hp, h2⟩ := ih hx p0 tail p' ht he hn _ (level2_loop_exit A _ hd hm)
    exact ⟨p, hp, level1_rule A h2 hl⟩
  | add l ws op r ihl ihr =>
    simp only [Tree.lexable, Bool.and_eq_true] at hx
    intro p0 tail p' ht he hn hd hm r0 hl
    have htl : p0.text = l.render ++ (ws ++ op.char :: (r.render ++ tail)) := by
      rw [ht]; simp [Tree.render]
    have ht1 := Parser.advance_text p0 l.last_type l.last_text l.render _ _ htl rfl
    have hop := next_token_char _ ws op.char (r.render ++ tail) _ ht1 hx.1.2
      (add_op_token op)
    have ht2 := Parser.advance_text (p0.after l) op.token [op.char] (ws ++ [op.char])
      (r.render ++ tail) (ws.length + 1) (by rw [Parser.after, ht1]; simp) (by simp)
    obtain ⟨q, hq, h2⟩ := ihr hx.2 _ tail p' ht2 he (by
      rw [← hn]
      congr 1
      simp only [Parser.after, Parser.advance_advance, Tree.render, Tree.last_type,
        Tree.last_text, List.length_append, List.length_cons, List.length_nil]
      congr 1
      omega) _ (level2_loop_exit A _ hd hm)
    exact ihl hx.1.1 p0 _ _ htl (ends_numeral_token ws op.char _ _ hx.1.2 (add_op_token op))
      hop (by cases op <;> simp [Parser.advance, AddOp.token])
      (by cases op <;> simp [Parser.advance, AddOp.token]) r0
      (level1_loop_rule A op _ rfl hq h2 hl)

/-! ## The call `parse` on a well-formed expression -/

theorem is_numeral_chars (t : List Char) (h : is_numeral t = true) :
    ∀ c ∈ t, isdigit c = true ∨ c = '.' := by
  induction t with
  | nil => cases h
  | cons c cs ih =>
    cases cs with
    | nil =>
      rw [is_numeral_single] at h
      intro x hm
      rw [List.mem_singleton] at hm
      exact Or.inl (hm ▸ h)
    | cons d ds =>
      by_cases hd : d = '.'
      · subst hd
        rw [is_numeral_point, Bool.and_eq_true, Bool.and_eq_true] at h
        intro x hm
        rcases List.mem_cons.mp hm with rfl | hm
        · exact Or.inl h.1
        · rcases List.mem_cons.mp hm with rfl | hm
          · exact Or.inr rfl
          · exact Or.inl (List.all_eq_true.mp h.2.2 x hm)
      · rw [is_numeral_next c d ds hd, Bool.and_eq_true] at h
        intro x hm
        rcases List.mem_cons.mp hm with rfl | hm
        · exact Or.inl h.1
        · exact ih h.2 x hm

theorem is_blank_chars (ws : List Char) (h : is_blank ws = true) : ∀ c ∈ ws, c ≠ '\x00' :=
  fun c hc => isspace_ne_nul (List.all_eq_true.mp h c hc)

/-- The text of a well-formed tree holds no NUL. -/
theorem Tree.render_chars {l : Level} (x : Tree l) (hx : x.lexable = true) :
    ∀ c ∈ x.render, c ≠ '\x00' := by
  induction x with
  | num ws text =>
    simp only [Tree.lexable, Bool.and_eq_true] at hx
    intro c hc
    rcases List.mem_append.mp hc with hc | hc
    · exact is_blank_chars ws hx.1 c hc
    · rcases is_number_text_chars text hx.2 c hc with h | h
      · exact isdigit_ne_nul h
      · rw [h]; decide
  | paren ws e wc ih =>
    simp only [Tree.lexable, Bool.and_eq_true] at hx
    intro c hc
    simp only [Tree.render, List.mem_append, List.mem_cons, List.mem_singleton,
      List.not_mem_nil, or_false] at hc
    rcases hc with hc | rfl | hc | hc | rfl
    · exact is_blank_chars ws hx.1.1 c hc
    · decide
    · exact ih hx.1.2 c hc
    · exact is_blank_chars wc hx.2 c hc
    · decide
  | plain e ih => exact ih hx
  | minus ws e ih =>
    simp only [Tree.lexable, Bool.and_eq_true] at hx
    intro c hc
    simp only [Tree.render, List.mem_append, List.mem_cons] at hc
    rcases hc with hc | rfl | hc
    · exact is_blank_chars ws hx.1 c hc
    · decide
    · exact ih hx.2 c hc
  | unary e ih => exact ih hx
  | mul l ws op r ihl ihr =>
    simp only [Tree.lexable, Bool.and_eq_true] at hx
    intro c hc
    simp only [Tree.render, List.mem_append, List.mem_cons] at hc
    rcases hc with hc | hc | rfl | hc
    · exact ihl hx.1.1 c hc
    · exact is_blank_chars ws hx.1.2 c hc
    · cases op <;> decide
    · exact ihr hx.2 c hc
  | term e ih => exact ih hx
  | add l ws op r ihl ihr =>
    simp only [Tree.lexable, Bool.and_eq_true] at hx
    intro c hc
    simp only [Tree.render, List.mem_append, List.mem_cons] at hc
    rcases hc with hc | hc | rfl | hc
    · exact ihl hx.1.1 c hc
    · exact is_blank_chars ws hx.1.2 c hc
    · cases op <;> decide
    · exact ihr hx.2 c hc

/-- The last token of a tree is a number or a close parenthesis. -/
theorem Tree.last_type_cases {l : Level} (x : Tree l) :
    x.last_type = .NUMBER ∨ x.last_type = .CLOSE_PARENTHESIS := by
  induction x with
  | num ws text => exact Or.inl rfl
  | paren ws e wc ih => exact Or.inr rfl
  | plain e ih => exact ih
  | minus ws e ih => exact ih
  | unary e ih => exact ih
  | mul l ws op r ihl ihr => exact ihr
  | term e ih => exact ih
  | add l ws op r ihl ihr => exact ihr

theorem parse_init_text (self : Parser) (expr : List Char) (h : ∀ c ∈ expr, c ≠ '\x00') :
    (parse_init self expr).text = expr := by
  have : expr.takeWhile (fun c => decide (c ≠ '\x00')) = expr :=
    List.takeWhile_eq_self_iff.mpr fun c hc => by simpa using h c hc
  show List.drop 0 (expr.takeWhile fun c => decide (c ≠ '\x00')) = expr
  rw [List.drop_zero, this]

/-- The call `parse` on the text of a sum the lexer can read, followed by white space,
returns the value of the sum and prints nothing. -/
theorem parse_lexable_tree {F : Type} (A : FloatOps F) (self : Parser) (x : Tree .sum)
    (trail : List Char) (hx : x.lexable = true) (ht : is_blank trail = true) :
    Returns A self (x.render ++ trail) ([], x.value A) := by
  have htext := parse_init_text self (x.render ++ trail) (fun c hc => by
    rcases List.mem_append.mp hc with hc | hc
    · exact x.render_chars hx c hc
    · exact is_blank_chars trail ht c hc)
  have hafter := Parser.advance_text (parse_init self (x.render ++ trail)) x.last_type
    x.last_text x.render trail _ htext rfl
  have hend := next_token_end _ trail hafter ht
  have hlast : ∀ t, t ≠ TOKEN_TYPE.NUMBER → t ≠ .CLOSE_PARENTHESIS →
      ((parse_init self (x.render ++ trail)).after x).token_type ≠ t := by
    intro t h1 h2 h
    rcases x.last_type_cases with k | k
    · exact h1 (h.symm.trans k)
    · exact h2 (h.symm.trans k)
  obtain ⟨p, hp, N, hN⟩ := Tree.parses A x hx _ trail _ htext (ends_numeral_blank trail ht)
    hend (hlast _ (by decide) (by decide)) (hlast _ (by decide) (by decide)) _
    (level1_loop_exit A _ (hlast _ (by decide) (by decide)) (hlast _ (by decide) (by decide)))
  refine ⟨N, fun n hn => ?_⟩
  simp only [parse, parse_try, next_token_call_ok hp, hN n hn]

theorem all_digits_number_text (ds : List Char) (hne : ds ≠ []) (hd : ds.all isdigit = true) :
    is_number_text ds = true := by
  induction ds with
  | nil => exact (hne rfl).elim
  | cons c cs ih =>
    simp only [List.all_cons, Bool.and_eq_true] at hd
    cases cs with
    | nil => rw [is_number_text_single]; exact hd.1
    | cons d ds =>
      have hd' := hd.2
      simp only [List.all_cons, Bool.and_eq_true] at hd'
      rw [is_number_text_next c d ds (isdigit_ne_point hd'.1), Bool.and_eq_true]
      exact ⟨hd.1, ih (by simp) hd.2⟩

/-- A numeral is a text the lexer reads as one number. -/
theorem is_number_text_of_numeral (t : List Char) (h : is_numeral t = true) :
    is_number_text t = true := by
  induction t with
  | nil => cases h
  | cons c cs ih =>
    cases cs with
    | nil => rw [is_numeral_single] at h; rw [is_number_text_single]; exact h
    | cons d ds =>
      by_cases hd : d = '.'
      · subst hd
        rw [is_numeral_point, Bool.and_eq_true, Bool.and_eq_true] at h
        rw [is_number_text_point, Bool.and_eq_true, Bool.or_eq_true]
        refine ⟨h.1, Or.inr (all_digits_number_text ds ?_ h.2.2)⟩
        intro he
        rw [he] at h
        simp at h
      · rw [is_numeral_next c d ds hd, Bool.and_eq_true] at h
        rw [is_number_text_next c d ds hd, Bool.and_eq_true]
        exact ⟨h.1, ih h.2⟩

/-- A well-formed tree is one the lexer can read. -/
theorem Tree.lexable_of_well_formed {l : Level} (x : Tree l) (hx : x.well_formed = true) :
    x.lexable = true := by
  induction x with
  | num ws text =>
    simp only [Tree.well_formed, Bool.and_eq_true] at hx
    simp only [Tree.lexable, Bool.and_eq_true]
    exact ⟨hx.1, is_number_text_of_numeral text hx.2⟩
  | paren ws e wc ih =>
    simp only [Tree.well_formed, Bool.and_eq_true] at hx
    simp only [Tree.lexable, Bool.and_eq_true]
    exact ⟨⟨hx.1.1, ih hx.1.2⟩, hx.2⟩
  | plain e ih => exact ih hx
  | minus ws e ih =>
    simp only [Tree.well_formed, Bool.and_eq_true] at hx
    simp only [Tree.lexable, Bool.and_eq_true]
    exact ⟨hx.1, ih hx.2⟩
  | unary e ih => exact ih hx
  | mul l ws op r ihl ihr =>
    simp only [Tree.well_formed, Bool.and_eq_true] at hx
    simp only [Tree.lexable, Bool.and_eq_true]
    exact ⟨⟨ihl hx.1.1, hx.1.2⟩, ihr hx.2⟩
  | term e ih => exact ih hx
  | add l ws op r ihl ihr =>
    simp only [Tree.well_formed, Bool.and_eq_true] at hx
    simp only [Tree.lexable, Bool.and_eq_true]
    exact ⟨⟨ihl hx.1.1, hx.1.2⟩, ihr hx.2⟩

/-- The call `parse` on the text of a well-formed sum followed by white space returns the
value of the sum and prints nothing. -/
theorem parse_tree {F : Type} (A : FloatOps F) (self : Parser) (x : Tree .sum)
    (trail : List Char) (hx : x.well_formed = true) (ht : is_blank trail = true) :
    Returns A self (x.render ++ trail) ([], x.value A) :=
  parse_lexable_tree A self x trail (x.lexable_of_well_formed hx) ht

/-! ## Numerals in the arithmetic without rounding -/

theorem rational_strtod_eq (text : List Char) (n k : Nat) (hn : strtod_number text = n)
    (hk : strtod_scale text = k) : rational.strtod text = (n : ℚ) / (10 ^ k : ℕ) := by
  subst hn hk; rfl

theorem rational_strtod_1 : rational.strtod ['1'] = 1 := by
  rw [rational_strtod_eq ['1'] 1 0 (by decide) (by decide)]; norm_num

theorem rational_strtod_2 : rational.strtod ['2'] = 2 := by
  rw [rational_strtod_eq ['2'] 2 0 (by decide) (by decide)]; norm_num

theorem rational_strtod_3 : rational.strtod ['3'] = 3 := by
  rw [rational_strtod_eq ['3'] 3 0 (by decide) (by decide)]; norm_num

theorem rational_strtod_4 : rational.strtod ['4'] = 4 := by
  rw [rational_strtod_eq ['4'] 4 0 (by decide) (by decide)]; norm_num

theorem rational_strtod_5 : rational.strtod ['5'] = 5 := by
  rw [rational_strtod_eq ['5'] 5 0 (by decide) (by decide)]; norm_num

theorem rational_strtod_8 : rational.strtod ['8'] = 8 := by
  rw [rational_strtod_eq ['8'] 8 0 (by decide) (by decide)]; norm_num

theorem sample_tree_value : sample_tree.value rational = (-5 / 2 : ℚ) := by
  simp only [sample_tree, Tree.lit, Tree.value, AddOp.apply, MulOp.apply, rational_strtod_1,
    rational_strtod_2, rational_strtod_3, rational_strtod_4]
  norm_num [rational]

theorem rational_strtod_several : rational.strtod "1.2.3".toList = (6 / 5 : ℚ) := by
  rw [rational_strtod_eq "1.2.3".toList 12 1 (by decide) (by decide)]; norm_num

/-! ## Two layouts of one token sequence -/

theorem Parser.advance_self (p : Parser) (k : Nat) :
    p.advance p.token_type p.token_value k = { p with m_cursor := p.m_cursor + k } := rfl

/-- From two similar states `next_token` goes to two similar states. -/
theorem next_token_similar {p q : Parser} (h : Similar p q) :
    ∃ p' q', next_token p = .ok p' ∧ next_token q = .ok q' ∧ Similar p' q' := by
  obtain ⟨hty, hval, l1, l2, t1, t2, htok, hv1, hv2, hp, hq⟩ := h
  cases l1 with
  | nil =>
    cases l2 with
    | cons x r2 => cases htok
    | nil =>
      simp only [valid_layout] at hv1 hv2
      simp only [render_tokens] at hp hq
      refine ⟨_, _, next_token_end p t1 hp hv1, next_token_end q t2 hq hv2, hty, hval,
        [], [], [], [], rfl, rfl, rfl, ?_, ?_⟩
      · rw [← Parser.advance_self]
        exact Parser.advance_text p _ _ t1 [] _ (by simpa using hp) rfl
      · rw [← Parser.advance_self]
        exact Parser.advance_text q _ _ t2 [] _ (by simpa using hq) rfl
  | cons x r1 =>
    cases l2 with
    | nil => cases htok
    | cons y r2 =>
      obtain ⟨ws1, tok⟩ := x
      obtain ⟨ws2, tok2⟩ := y
      simp only [layout_tokens, List.map_cons, List.cons.injEq] at htok
      obtain ⟨rfl, hrest⟩ := htok
      simp only [valid_layout, Bool.and_eq_true, Bool.or_eq_true, Bool.not_eq_true'] at hv1 hv2
      simp only [render_tokens] at hp hq
      cases tok with
      | sign c =>
        obtain ⟨t, ht⟩ := Option.isSome_iff_exists.mp hv1.1.1.2
        refine ⟨_, _, next_token_char p ws1 c _ t hp hv1.1.1.1 ht,
          next_token_char q ws2 c _ t hq hv2.1.1.1 ht, rfl, rfl,
          r1, r2, t1, t2, hrest, hv1.2, hv2.2, ?_, ?_⟩
        · exact Parser.advance_text p _ _ (ws1 ++ [c]) _ _ (by rw [hp]; simp [Token.text])
            (by simp)
        · exact Parser.advance_text q _ _ (ws2 ++ [c]) _ _ (by rw [hq]; simp [Token.text])
            (by simp)
      | number text =>
        have he1 : ends_numeral (render_tokens r1 t1) = true := by
          rcases hv1.1.2 with h | h
          · cases h
          · exact h
        have he2 : ends_numeral (render_tokens r2 t2) = true := by
          rcases hv2.1.2 with h | h
          · cases h
          · exact h
        refine ⟨_, _, next_token_number p ws1 text _ hp hv1.1.1.1 hv1.1.1.2 he1,
          next_token_number q ws2 text _ hq hv2.1.1.1 hv2.1.1.2 he2, rfl, rfl,
          r1, r2, t1, t2, hrest, hv1.2, hv2.2, ?_, ?_⟩
        · exact Parser.advance_text p _ _ (ws1 ++ text) _ _ (by rw [hp]; simp [Token.text])
            (by simp)
        · exact Parser.advance_text q _ _ (ws2 ++ text) _ _ (by rw [hq]; simp [Token.text])
            (by simp)

theorem similar_bind {F : Type} {x y : Outcome (F × Parser)}
    {f g : F × Parser → Outcome (F × Parser)} (h : SimilarOutcome x y)
    (hf : ∀ r s, r.1 = s.1 → Similar r.2 s.2 → SimilarOutcome (f r) (g s)) :
    SimilarOutcome (x.bind f) (y.bind g) := by
  cases x <;> cases y <;> first | exact h.elim | exact h | exact hf _ _ h.1 h.2

theorem next_token_call_similar {F : Type} {p q : Parser}
    {f g : Parser → Outcome (F × Parser)} (h : Similar p q)
    (hf : ∀ p' q', Similar p' q' → SimilarOutcome (f p') (g q')) :
    SimilarOutcome (next_token_call p f) (next_token_call q g) := by
  obtain ⟨p', q', hp, hq, hs⟩ := next_token_similar h
  rw [next_token_call_ok hp, next_token_call_ok hq]
  exact hf p' q' hs

theorem eval_operator_similar {F : Type} (A : FloatOps F) (op : TOKEN_TYPE) (a b : F)
    {f g : F → Outcome (F × Parser)} (hf : ∀ c, SimilarOutcome (f c) (g c)) :
    SimilarOutcome ((eval_operator A op a b).bind f) ((eval_operator A op a b).bind g) := by
  cases op <;> first | exact hf _ | exact rfl

/-- Each level keeps two runs similar, at every recursion budget. -/
theorem level_similar {F : Type} (A : FloatOps F) (n : Nat) :
    (∀ p q, Similar p q → SimilarOutcome (level1 A n p) (level1 A n q)) ∧
    (∀ a p q, Similar p q → SimilarOutcome (level1_loop A n a p) (level1_loop A n a q)) ∧
    (∀ p q, Similar p q → SimilarOutcome (level2 A n p) (level2 A n q)) ∧
    (∀ a p q, Similar p q → SimilarOutcome (level2_loop A n a p) (level2_loop A n a q)) ∧
    (∀ p q, Similar p q → SimilarOutcome (level3 A n p) (level3 A n q)) ∧
    (∀ p q, Similar p q → SimilarOutcome (level4 A n p) (level4 A n q)) := by
  induction n with
  | zero =>
    exact ⟨fun _ _ _ => trivial, fun _ _ _ _ => trivial, fun _ _ _ => trivial,
      fun _ _ _ _ => trivial, fun _ _ _ => trivial, fun _ _ _ => trivial⟩
  | succ n ih =>
    obtain ⟨h1, h1l, h2, h2l, h3, h4⟩ := ih
    refine ⟨?_, ?_, ?_, ?_, ?_, ?_⟩
    · intro p q h
      rw [level1, level1]
      exact similar_bind (h2 p q h) fun r s hv hs => by rw [hv]; exact h1l _ _ _ hs
    · intro a p q h
      rw [level1_loop, level1_loop, ← h.1]
      split
      · exact next_token_call_similar h fun p' q' hs =>
          similar_bind (h2 p' q' hs) fun r s hv hs' => by
            rw [hv]; exact eval_operator_similar A _ _ _ fun c => h1l c _ _ hs'
      · exact ⟨rfl, h⟩
    · intro p q h
      rw [level2, level2]
      exact similar_bind (h3 p q h) fun r s hv hs => by rw [hv]; exact h2l _ _ _ hs
    · intro a p q h
      rw [level2_loop, level2_loop, ← h.1]
      split
      · exact next_token_call_similar h fun p' q' hs =>
          similar_bind (h3 p' q' hs) fun r s hv hs' => by
            rw [hv]; exact eval_operator_similar A _ _ _ fun c => h2l c _ _ hs'
      · exact ⟨rfl, h⟩
    · intro p q h
      rw [level3, level3, ← h.1]
      split
      · exact next_token_call_similar h fun p' q' hs =>
          similar_bind (h4 p' q' hs) fun r s hv hs' => ⟨by rw [hv], hs'⟩
      · exact h4 p q h
    · intro p q h
      rw [level4, level4, ← h.1]
      split
      · refine next_token_call_similar h fun p' q' hs =>
          similar_bind (h1 p' q' hs) fun r s hv hs' => ?_
        rw [← hs'.1]
        split
        · exact rfl
        · exact next_token_call_similar hs' fun p'' q'' hs'' => ⟨hv, hs''⟩
      · unfold get_number
        rw [← h.1, ← h.2.1]
        split
        · exact next_token_call_similar h fun p' q' hs => ⟨rfl, hs⟩
        · exact rfl

theorem token_ne_nul {c : Char} (h : (token_of_char c).isSome = true) : c ≠ '\x00' := by
  rintro rfl; revert h; decide

/-- The text of a valid layout holds no NUL. -/
theorem render_tokens_chars (layout : List (List Char × Token)) (trail : List Char)
    (h : valid_layout layout trail = true) :
    ∀ c ∈ render_tokens layout trail, c ≠ '\x00' := by
  induction layout with
  | nil => exact is_blank_chars trail h
  | cons x rest ih =>
    obtain ⟨ws, tok⟩ := x
    simp only [valid_layout, Bool.and_eq_true] at h
    intro c hc
    simp only [render_tokens, List.mem_append] at hc
    rcases hc with hc | hc | hc
    · exact is_blank_chars ws h.1.1.1 c hc
    · cases tok with
      | sign d =>
        simp only [Token.text, List.mem_singleton] at hc
        subst hc
        exact token_ne_nul h.1.1.2
      | number text =>
        rcases is_number_text_chars text h.1.1.2 c hc with k | k
        · exact isdigit_ne_nul k
        · rw [k]; decide
    · exact ih h.2 c hc

/-- The call `parse` on two layouts of one token sequence has one outcome, at every recursion
budget. -/
theorem parse_layouts {F : Type} (A : FloatOps F) (self : Parser)
    (l1 l2 : List (List Char × Token)) (t1 t2 : List Char)
    (htok : layout_tokens l1 = layout_tokens l2) (h1 : valid_layout l1 t1 = true)
    (h2 : valid_layout l2 t2 = true) (n : Nat) :
    parse A n self (render_tokens l1 t1) = parse A n self (render_tokens l2 t2) := by
  have hs : Similar (parse_init self (render_tokens l1 t1))
      (parse_init self (render_tokens l2 t2)) :=
    ⟨rfl, rfl, l1, l2, t1, t2, htok, h1, h2,
      parse_init_text self _ (render_tokens_chars l1 t1 h1),
      parse_init_text self _ (render_tokens_chars l2 t2 h2)⟩
  have h := next_token_call_similar hs fun p' q' hs' => (level_similar A n).1 p' q' hs'
  unfold parse parse_try
  revert h
  generalize next_token_call (parse_init self (render_tokens l1 t1)) (level1 A n) = x
  generalize next_token_call (parse_init self (render_tokens l2 t2)) (level1 A n) = y
  intro h
  cases x <;> cases y <;> first | exact h.elim | rfl | (simp only; rw [h.1]) | (simp only; rw [h])

/-! ## The end of the text -/

theorem parse_init_self (self : Parser) (expr : List Char) :
    parse_init self expr = parse_init fresh expr := rfl

/-- The object `parse` is called on does not matter. -/
theorem parse_self {F : Type} (A : FloatOps F) (n : Nat) (self : Parser) (expr : List Char) :
    parse A n self expr = parse A n fresh expr := rfl

/-- A concrete run on a fresh object, in the recording arithmetic, settles the call on every
object in every arithmetic. -/
theorem returns_of_run {F : Type} (A : FloatOps F) (self : Parser) (expr : List Char)
    (N : Nat) (out : List String) (v : Sym) (h : parse sym N fresh expr = .ok (out, v)) :
    Returns A self expr (out, v.eval A) :=
  returns_of_sym A self expr N out v h

/-- A state on an open parenthesis that `next_token` does not change: every level called in
it uses up every recursion budget. -/
theorem level_stuck {F : Type} (A : FloatOps F) (p : Parser)
    (ht : p.token_type = .OPEN_PARENTHESIS) (hn : next_token p = .ok p) (n : Nat) :
    level1 A n p = .out_of_fuel ∧ level2 A n p = .out_of_fuel ∧
      level3 A n p = .out_of_fuel ∧ level4 A n p = .out_of_fuel := by
  induction n with
  | zero => exact ⟨rfl, rfl, rfl, rfl⟩
  | succ n ih =>
    obtain ⟨h1, h2, h3, h4⟩ := ih
    refine ⟨?_, ?_, ?_, ?_⟩
    · rw [level1, h2]; rfl
    · rw [level2, h3]; rfl
    · rw [level3, if_neg (by rw [ht]; decide), h4]
    · rw [level4, if_pos ht, next_token_call_ok hn, h1]; rfl

/-- At the terminator `next_token` changes nothing. -/
theorem next_token_fixed (p : Parser) (h : p.text = []) : next_token p = .ok p :=
  next_token_end p [] h rfl

theorem next_token_end_advance (p : Parser) (ws : List Char) (h : p.text = ws)
    (hws : is_blank ws = true) :
    next_token p = .ok (p.advance p.token_type p.token_value ws.length) :=
  next_token_end p ws h hws

theorem never_level4 {F : Type} (A : FloatOps F) {p q : Parser}
    (ht : p.token_type = .OPEN_PARENTHESIS) (hn : next_token p = .ok q)
    (h : ∀ n, level1 A n q = .out_of_fuel) (n : Nat) : level4 A n p = .out_of_fuel := by
  cases n with
  | zero => rfl
  | succ n => rw [level4, if_pos ht, next_token_call_ok hn, h n]; rfl

theorem never_level3 {F : Type} (A : FloatOps F) {p : Parser}
    (ht : p.token_type ≠ .SUBSTRACTION_OP) (h : ∀ n, level4 A n p = .out_of_fuel) (n : Nat) :
    level3 A n p = .out_of_fuel := by
  cases n with
  | zero => rfl
  | succ n => rw [level3, if_neg ht, h n]

theorem never_level2 {F : Type} (A : FloatOps F) {p : Parser}
    (h : ∀ n, level3 A n p = .out_of_fuel) (n : Nat) : level2 A n p = .out_of_fuel := by
  cases n with
  | zero => rfl
  | succ n => rw [level2, h n]; rfl

theorem never_level1 {F : Type} (A : FloatOps F) {p : Parser}
    (h : ∀ n, level2 A n p = .out_of_fuel) (n : Nat) : level1 A n p = .out_of_fuel := by
  cases n with
  | zero => rfl
  | succ n => rw [level1, h n]; rfl

/-- The call `parse` on an open parenthesis between white space never returns. -/
theorem parse_open_diverges {F : Type} (A : FloatOps F) (self : Parser)
    (ws trail : List Char) (hws : is_blank ws = true) (ht : is_blank trail = true) :
    Diverges A self (ws ++ '(' :: trail) := by
  have htext := parse_init_text self (ws ++ '(' :: trail) (fun c hc => by
    simp only [List.mem_append, List.mem_cons] at hc
    rcases hc with hc | rfl | hc
    · exact is_blank_chars ws hws c hc
    · decide
    · exact is_blank_chars trail ht c hc)
  have h0 := next_token_char _ ws '(' trail _ htext hws rfl
  have ht1 := Parser.advance_text _ .OPEN_PARENTHESIS ['('] (ws ++ ['(']) trail
    (ws.length + 1) (by rw [htext]; simp) (by simp)
  have h1 := next_token_end_advance _ trail ht1 ht
  have ht2 := Parser.advance_text _ TOKEN_TYPE.OPEN_PARENTHESIS ['('] trail [] trail.length
    (by simpa using ht1) rfl
  have h2 := next_token_fixed _ ht2
  have hl := never_level1 A (never_level2 A (never_level3 A (by simp [Parser.advance])
    (never_level4 A rfl h1 fun n => (level_stuck A _ rfl h2 n).1)))
  intro n
  unfold parse parse_try
  rw [next_token_call_ok h0, hl n]

/-! ## A level called on a token that starts no operand -/

theorem token_of_char_ne_number {c : Char} {t : TOKEN_TYPE} (h : token_of_char c = some t) :
    t ≠ .NUMBER := by
  unfold token_of_char at h
  repeat' split at h
  all_goals first | (cases h; decide) | cases h

theorem level4_throw {F : Type} (A : FloatOps F) (n : Nat) (p : Parser)
    (h1 : p.token_type ≠ .NUMBER) (h2 : p.token_type ≠ .OPEN_PARENTHESIS) :
    level4 A (n + 1) p = .throw .not_a_number := by
  rw [level4, if_neg h2, get_number, if_neg h1]

theorem level3_throw {F : Type} (A : FloatOps F) (n : Nat) (p : Parser)
    (h1 : p.token_type ≠ .NUMBER) (h2 : p.token_type ≠ .OPEN_PARENTHESIS)
    (h3 : p.token_type ≠ .SUBSTRACTION_OP) :
    level3 A (n + 2) p = .throw .not_a_number := by
  rw [level3, if_neg h3, level4_throw A n p h1 h2]

theorem level2_throw {F : Type} (A : FloatOps F) (n : Nat) (p : Parser) (e : Error)
    (h : level3 A n p = .throw e) : level2 A (n + 1) p = .throw e := by
  rw [level2, h]; rfl

theorem level1_throw {F : Type} (A : FloatOps F) (n : Nat) (p : Parser) (e : Error)
    (h : level2 A n p = .throw e) : level1 A (n + 1) p = .throw e := by
  rw [level1, h]; rfl

/-- At the end of the text a left-over minus sign is taken as a unary minus, and the operand
after it is missing. -/
theorem level3_throw_end {F : Type} (A : FloatOps F) (n : Nat) (p : Parser)
    (h1 : p.token_type ≠ .NUMBER) (h2 : p.token_type ≠ .OPEN_PARENTHESIS)
    (he : p.text = []) : level3 A (n + 2) p = .throw .not_a_number := by
  by_cases h3 : p.token_type = .SUBSTRACTION_OP
  · rw [level3, if_pos h3, next_token_call_ok (next_token_end p [] he rfl)]
    have h4 := level4_throw A n { p with m_cursor := p.m_cursor + ([] : List Char).length }
      h1 h2
    rw [h4]
    rfl
  · exact level3_throw A n p h1 h2 h3

/-- An exception at the operand ends whatever the caller would do with the operand. -/
theorem next_token_call_throw {α β : Type} (p : Parser) (f : Parser → Outcome α)
    (k : α → Outcome β) (e : Error) (h : next_token_call p f = .throw e) :
    next_token_call p (fun q => (f q).bind k) = .throw e := by
  cases hq : next_token p with
  | ok q =>
    rw [next_token_call_ok hq] at h ⊢
    rw [h]; rfl
  | error e' =>
    rw [next_token_call_error hq] at h ⊢
    injection h with h
    rw [h]

/-- An exception of `level1` at the start of the input is printed by `parse`. -/
theorem parse_of_throw {F : Type} (A : FloatOps F) (n : Nat) (self : Parser)
    (expr : List Char) (e : Error)
    (h : next_token_call (parse_init self expr) (level1 A n) = .throw e) :
    parse A n self expr = .ok ([e.what], A.zero) := by
  unfold parse parse_try
  rw [h]

/-! ## An open parenthesis that is never closed -/

theorem eventually_bind_throw {α β : Type} {f : Nat → Outcome α}
    {g : Nat → α → Outcome β} {e : Error} (hf : Eventually f (.throw e)) :
    Eventually (fun n => (f n).bind (g n)) (.throw e) := by
  obtain ⟨N, hN⟩ := hf
  refine ⟨N, fun n hn => ?_⟩
  show (f n).bind (g n) = .throw e
  rw [hN n hn]
  rfl

/-- An exception of `level2` leaves `level1`. -/
theorem level1_throw_rule {F : Type} (A : FloatOps F) {p : Parser} {e : Error}
    (h2 : Eventually (fun n => level2 A n p) (.throw e)) :
    Eventually (fun n => level1 A n p) (.throw e) :=
  eventually_of_succ (by simp only [level1]; exact eventually_bind_throw h2)

/-- An exception of `level3` leaves `level2`. -/
theorem level2_throw_rule {F : Type} (A : FloatOps F) {p : Parser} {e : Error}
    (h3 : Eventually (fun n => level3 A n p) (.throw e)) :
    Eventually (fun n => level2 A n p) (.throw e) :=
  eventually_of_succ (by simp only [level2]; exact eventually_bind_throw h3)

/-- The rule of `level4` on an open parenthesis that is not closed. -/
theorem level4_unclosed_rule {F : Type} (A : FloatOps F) {p q q' : Parser} {v : F}
    (ht : p.token_type = .OPEN_PARENTHESIS) (hn : next_token p = .ok q)
    (h1 : Eventually (fun n => level1 A n q) (.ok (v, q')))
    (hc : q'.token_type ≠ .CLOSE_PARENTHESIS) :
    Eventually (fun n => level4 A n p) (.throw .missing_close) := by
  refine eventually_of_succ ?_
  simp only [level4, ht, if_true, next_token_call_ok hn]
  refine eventually_bind h1 ?_
  simp only [hc, ne_eq, not_false_eq_true, if_true]
  exact eventually_const _

/-- The call `parse` when `level1` returns. -/
theorem returns_of_level1 {F : Type} (A : FloatOps F) (self : Parser) (expr : List Char)
    {p q : Parser} {v : F} (hn : next_token (parse_init self expr) = .ok p)
    (h1 : Eventually (fun n => level1 A n p) (.ok (v, q))) : Returns A self expr ([], v) := by
  obtain ⟨N, hN⟩ := h1
  refine ⟨N, fun n hn' => ?_⟩
  simp only [parse, parse_try, next_token_call_ok hn, hN n hn']

/-- The call `parse` when `level1` throws. -/
theorem returns_of_level1_throw {F : Type} (A : FloatOps F) (self : Parser) (expr : List Char)
    {p : Parser} {e : Error} (hn : next_token (parse_init self expr) = .ok p)
    (h1 : Eventually (fun n => level1 A n p) (.throw e)) :
    Returns A self expr ([e.what], A.zero) := by
  obtain ⟨N, hN⟩ := h1
  refine ⟨N, fun n hn' => ?_⟩
  simp only [parse, parse_try, next_token_call_ok hn, hN n hn']

/-- The call `parse` on an open parenthesis followed by a well-formed sum and white space:
the error of the missing close parenthesis when the sum ends with a number, and the value of
the sum without an error when the sum ends with a close parenthesis. -/
theorem parse_open_tree {F : Type} (A : FloatOps F) (self : Parser) (ws : List Char)
    (x : Tree .sum) (trail : List Char) (hws : is_blank ws = true)
    (hx : x.well_formed = true) (ht : is_blank trail = true) :
    (x.last_type = .NUMBER →
      Returns A self (ws ++ '(' :: (x.render ++ trail)) ([Error.missing_close.what], A.zero)) ∧
    (x.last_type = .CLOSE_PARENTHESIS →
      Returns A self (ws ++ '(' :: (x.render ++ trail)) ([], x.value A)) := by
  have htext := parse_init_text self (ws ++ '(' :: (x.render ++ trail)) (fun c hc => by
    simp only [List.mem_append, List.mem_cons] at hc
    rcases hc with hc | rfl | hc | hc
    · exact is_blank_chars ws hws c hc
    · decide
    · exact x.render_chars (x.lexable_of_well_formed hx) c hc
    · exact is_blank_chars trail ht c hc)
  have h0 := next_token_char _ ws '(' (x.render ++ trail) _ htext hws rfl
  have ht1 := Parser.advance_text _ .OPEN_PARENTHESIS ['('] (ws ++ ['('])
    (x.render ++ trail) (ws.length + 1) (by rw [htext]; simp) (by simp)
  have hafter := Parser.advance_text _ x.last_type x.last_text x.render trail _ ht1 rfl
  have hend := next_token_end _ trail hafter ht
  have hlast : ∀ t, t ≠ TOKEN_TYPE.NUMBER → t ≠ .CLOSE_PARENTHESIS →
      x.last_type ≠ t := by
    intro t h1 h2 h
    rcases x.last_type_cases with k | k
    · exact h1 (h.symm.trans k)
    · exact h2 (h.symm.trans k)
  obtain ⟨p, hp, h1⟩ := Tree.parses A x (x.lexable_of_well_formed hx) _ trail _ ht1 (ends_numeral_blank trail ht)
    hend (hlast _ (by decide) (by decide)) (hlast _ (by decide) (by decide)) _
    (level1_loop_exit A _ (hlast _ (by decide) (by decide)) (hlast _ (by decide) (by decide)))
  constructor
  · intro hnum
    have h4 := level4_unclosed_rule A rfl hp h1 (by
      show x.last_type ≠ .CLOSE_PARENTHESIS
      rw [hnum]; decide)
    have h3 := level3_plain_rule A (by simp [Parser.advance]) h4
    exact returns_of_level1_throw A self _ h0 (level1_throw_rule A (level2_throw_rule A h3))
  · intro hclose
    have hend' := next_token_end
      { (Parser.after _ x) with m_cursor := (Parser.after _ x).m_cursor + trail.length } []
      (by
        rw [← Parser.advance_self]
        exact Parser.advance_text _ _ _ trail [] _ (by simpa using hafter) rfl) rfl
    have h4 := level4_paren_rule A rfl hp h1 hclose hend'
    have h3 := level3_plain_rule A (by simp [Parser.advance]) h4
    have h2 := level2_rule A h3 (level2_loop_exit A _
      (by show x.last_type ≠ _; rw [hclose]; decide)
      (by show x.last_type ≠ _; rw [hclose]; decide))
    have h1' := level1_rule A h2 (level1_loop_exit A _
      (by show x.last_type ≠ _; rw [hclose]; decide)
      (by show x.last_type ≠ _; rw [hclose]; decide))
    exact returns_of_level1 A self _ h0 h1'

/-! ## Texts that go on after what is read -/

/-- The text `parse` starts on, when the expression begins with a text without NUL: the rest
is kept up to its first NUL. -/
theorem parse_init_text_append (self : Parser) (pre rest : List Char)
    (h : ∀ c ∈ pre, c ≠ '\x00') :
    (parse_init self (pre ++ rest)).text =
      pre ++ rest.takeWhile (fun c => decide (c ≠ '\x00')) := by
  show List.drop 0 ((pre ++ rest).takeWhile fun c => decide (c ≠ '\x00')) = _
  rw [List.drop_zero, List.takeWhile_append_of_pos (fun c hc => by simpa using h c hc)]

/-- A minus sign after a minus sign: `level3` takes the first one as the unary minus and
`level4` finds no operand. -/
theorem level3_minus_minus {F : Type} (A : FloatOps F) (n : Nat) (p q : Parser)
    (hp : p.token_type = .SUBSTRACTION_OP) (hn : next_token p = .ok q)
    (hq : q.token_type = .SUBSTRACTION_OP) :
    level3 A (n + 2) p = .throw .not_a_number := by
  rw [level3, if_pos hp, next_token_call_ok hn,
    level4_throw A n q (by rw [hq]; decide) (by rw [hq]; decide)]
  rfl

/-- The call `parse` on the text of a sum followed by a text whose first token starts no
operator: the value of the sum, and nothing printed. -/
theorem parse_tree_followed {F : Type} (A : FloatOps F) (self : Parser) (expr : List Char)
    (x : Tree .sum) (tail : List Char) (p' : Parser) (hx : x.lexable = true)
    (htext : (parse_init self expr).text = x.render ++ tail)
    (he : ends_numeral tail = true)
    (hn : next_token ((parse_init self expr).after x) = .ok p')
    (ha : p'.token_type ≠ .ADDITION_OP) (hs : p'.token_type ≠ .SUBSTRACTION_OP)
    (hd : p'.token_type ≠ .DIVISION_OP) (hm : p'.token_type ≠ .MULTIPLICATION_OP) :
    Returns A self expr ([], x.value A) := by
  obtain ⟨p, hp, h1⟩ := Tree.parses A x hx _ tail p' htext he hn hd hm _
    (level1_loop_exit A _ ha hs)
  exact returns_of_level1 A self expr hp h1

/-- A text shorter than `m_expr` fits in it. -/
theorem fits_m_expr_of_length (expr : List Char) (h : expr.length < MAX_EXPRESSION_LENGTH) :
    fits_m_expr expr = true := by
  simp only [fits_m_expr, decide_eq_true_eq]
  exact lt_of_le_of_lt (List.takeWhile_prefix _).length_le h

/-- A token text that fits in `token_value` has fewer than 20 characters. -/
theorem fits_token_value_length {text : List Char} (h : fits_token_value text = true) :
    text.length < 20 := by
  simpa [fits_token_value, MAX_TOKEN_LENGTH] using h

/-! ## An exception raised inside a call ends the call -/

/-- An exception raised inside a call is the outcome of the call. -/
theorem raises_throw {F : Type} (A : FloatOps F) {n : Nat} {c : Call F} {e : Error}
    (h : Raises A n c e) : c.run A n = .throw e := by
  induction h with
  | get_number ho hn =>
    simp only [Call.run, level4, if_neg ho, get_number, if_neg hn]
  | get_number_next ho hn hl =>
    simp only [Call.run, level4, if_neg ho, get_number, if_pos hn, next_token_call_error hl]
  | level4_next ho hl =>
    simp only [Call.run, level4, if_pos ho, next_token_call_error hl]
  | level4_inner ho hl _ ih =>
    simp only [Call.run] at ih
    simp only [Call.run, level4, if_pos ho, next_token_call_ok hl, ih, Outcome.bind]
  | level4_missing ho hl h1 hc =>
    simp only [Call.run, level4, if_pos ho, next_token_call_ok hl, h1, Outcome.bind, ne_eq, hc,
      not_false_eq_true, if_true]
  | level4_close_next ho hl h1 hc hl' =>
    simp only [Call.run, level4, if_pos ho, next_token_call_ok hl, h1, Outcome.bind, ne_eq, hc,
      not_true_eq_false, if_false, next_token_call_error hl']
  | level3_next hs hl =>
    simp only [Call.run, level3, if_pos hs, next_token_call_error hl]
  | level3_minus hs hl _ ih =>
    simp only [Call.run] at ih
    simp only [Call.run, level3, if_pos hs, next_token_call_ok hl, ih, Outcome.bind]
  | level3_plain hs _ ih =>
    simp only [Call.run] at ih
    simp only [Call.run, level3, if_neg hs, ih]
  | level2_first _ ih =>
    simp only [Call.run] at ih
    simp only [Call.run, level2, ih, Outcome.bind]
  | level2_rest h3 _ ih =>
    simp only [Call.run] at ih
    simp only [Call.run, level2, h3, Outcome.bind, ih]
  | loop2_next ht hl =>
    simp only [Call.run, level2_loop, if_pos ht, next_token_call_error hl]
  | loop2_operand ht hl _ ih =>
    simp only [Call.run] at ih
    simp only [Call.run, level2_loop, if_pos ht, next_token_call_ok hl, ih, Outcome.bind]
  | loop2_operator ht hl h3 he =>
    simp only [Call.run, level2_loop, if_pos ht, next_token_call_ok hl, h3, Outcome.bind, he]
  | loop2_again ht hl h3 he _ ih =>
    simp only [Call.run] at ih
    simp only [Call.run, level2_loop, if_pos ht, next_token_call_ok hl, h3, Outcome.bind, he,
      ih]
  | level1_first _ ih =>
    simp only [Call.run] at ih
    simp only [Call.run, level1, ih, Outcome.bind]
  | level1_rest h2 _ ih =>
    simp only [Call.run] at ih
    simp only [Call.run, level1, h2, Outcome.bind, ih]
  | loop1_next ht hl =>
    simp only [Call.run, level1_loop, if_pos ht, next_token_call_error hl]
  | loop1_operand ht hl _ ih =>
    simp only [Call.run] at ih
    simp only [Call.run, level1_loop, if_pos ht, next_token_call_ok hl, ih, Outcome.bind]
  | loop1_operator ht hl h2 he =>
    simp only [Call.run, level1_loop, if_pos ht, next_token_call_ok hl, h2, Outcome.bind, he]
  | loop1_again ht hl h2 he _ ih =>
    simp only [Call.run] at ih
    simp only [Call.run, level1_loop, if_pos ht, next_token_call_ok hl, h2, Outcome.bind, he,
      ih]

/-- Every exception that is the outcome of a call is raised inside the call. -/
theorem throw_raises {F : Type} (A : FloatOps F) (n : Nat) :
    ∀ (c : Call F) (e : Error), c.run A n = .throw e → Raises A n c e := by
  induction n with
  | zero =>
    intro c e h
    cases c <;> cases h
  | succ n ih =>
    intro c e h
    cases c with
    | level1 p =>
      simp only [Call.run, level1] at h
      cases h2 : level2 A n p with
      | ok r =>
        rw [h2] at h
        exact .level1_rest h2 (ih (.level1_loop r.1 r.2) e h)
      | throw e' =>
        rw [h2] at h
        cases h
        exact .level1_first (ih (.level2 p) _ h2)
      | out_of_fuel => rw [h2] at h; cases h
    | level1_loop ans p =>
      simp only [Call.run, level1_loop] at h
      split at h
      · rename_i ht
        cases hl : next_token p with
        | error e' =>
          rw [next_token_call_error hl] at h
          cases h
          exact .loop1_next ht hl
        | ok q =>
          rw [next_token_call_ok hl] at h
          cases h2 : level2 A n q with
          | ok r =>
            rw [h2] at h
            simp only [Outcome.bind] at h
            cases he : eval_operator A p.token_type ans r.1 with
            | ok a =>
              rw [he] at h
              exact .loop1_again ht hl h2 he (ih (.level1_loop a r.2) e h)
            | throw e' =>
              rw [he] at h
              cases h
              exact .loop1_operator ht hl h2 he
            | out_of_fuel => rw [he] at h; cases h
          | throw e' =>
            rw [h2] at h
            cases h
            exact .loop1_operand ht hl (ih (.level2 q) _ h2)
          | out_of_fuel => rw [h2] at h; cases h
      · cases h
    | level2 p =>
      simp only [Call.run, level2] at h
      cases h3 : level3 A n p with
      | ok r =>
        rw [h3] at h
        exact .level2_rest h3 (ih (.level2_loop r.1 r.2) e h)
      | throw e' =>
        rw [h3] at h
        cases h
        exact .level2_first (ih (.level3 p) _ h3)
      | out_of_fuel => rw [h3] at h; cases h
    | level2_loop ans p =>
      simp only [Call.run, level2_loop] at h
      split at h
      · rename_i ht
        cases hl : next_token p with
        | error e' =>
          rw [next_token_call_error hl] at h
          cases h
          exact .loop2_next ht hl
        | ok q =>
          rw [next_token_call_ok hl] at h
          cases h3 : level3 A n q with
          | ok r =>
            rw [h3] at h
            simp only [Outcome.bind] at h
            cases he : eval_operator A p.token_type ans r.1 with
            | ok a =>
              rw [he] at h
              exact .loop2_again ht hl h3 he (ih (.level2_loop a r.2) e h)
            | throw e' =>
              rw [he] at h
              cases h
              exact .loop2_operator ht hl h3 he
            | out_of_fuel => rw [he] at h; cases h
          | throw e' =>
            rw [h3] at h
            cases h
            exact .loop2_operand ht hl (ih (.level3 q) _ h3)
          | out_of_fuel => rw [h3] at h; cases h
      · cases h
    | level3 p =>
      simp only [Call.run, level3] at h
      split at h
      · rename_i hs
        cases hl : next_token p with
        | error e' =>
          rw [next_token_call_error hl] at h
          cases h
          exact .level3_next hs hl
        | ok q =>
          rw [next_token_call_ok hl] at h
          cases h4 : level4 A n q with
          | ok r => rw [h4] at h; cases h
          | throw e' =>
            rw [h4] at h
            cases h
            exact .level3_minus hs hl (ih (.level4 q) _ h4)
          | out_of_fuel => rw [h4] at h; cases h
      · rename_i hs
        exact .level3_plain hs (ih (.level4 p) e h)
    | level4 p =>
      simp only [Call.run, level4] at h
      split at h
      · rename_i ho
        cases hl : next_token p with
        | error e' =>
          rw [next_token_call_error hl] at h
          cases h
          exact .level4_next ho hl
        | ok q =>
          rw [next_token_call_ok hl] at h
          cases h1 : level1 A n q with
          | ok r =>
            rw [h1] at h
            simp only [Outcome.bind] at h
            split at h
            · rename_i hc
              cases h
              exact .level4_missing ho hl h1 hc
            · rename_i hc
              cases hl' : next_token r.2 with
              | error e' =>
                rw [next_token_call_error hl'] at h
                cases h
                exact .level4_close_next ho hl h1 (by simpa using hc) hl'
              | ok q' => rw [next_token_call_ok hl'] at h; cases h
          | throw e' =>
            rw [h1] at h
            cases h
            exact .level4_inner ho hl (ih (.level1 q) _ h1)
          | out_of_fuel => rw [h1] at h; cases h
      · rename_i ho
        simp only [get_number] at h
        split at h
        · rename_i hn
          cases hl : next_token p with
          | error e' =>
            rw [next_token_call_error hl] at h
            cases h
            exact .get_number_next ho hn hl
          | ok q => rw [next_token_call_ok hl] at h; cases h
        · rename_i hn
          cases h
          exact .get_number ho hn

/-! ## What `next_token` keeps true -/

theorem scan_number_head (d : Char) (ds : List Char) (hd : isdigit d = true) :
    ∃ rest, scan_number (d :: ds) = d :: rest := by
  cases ds with
  | nil => exact ⟨[], scan_number_single d hd⟩
  | cons c cs =>
    by_cases hc : c = '.'
    · subst hc
      exact ⟨_, scan_number_point d cs hd⟩
    · exact ⟨_, scan_number_next d c cs hd hc⟩

theorem scan_number_nil : scan_number [] = [] := rfl

/-- The text stored by the numeric branch is a digit with an optional point after it, one
or more times. -/
theorem scan_number_is_number_text (s : List Char) (hs : isdigit (s.headD '\x00') = true) :
    is_number_text (scan_number s) = true := by
  generalize hl : s.length = n
  induction n using Nat.strong_induction_on generalizing s with
  | _ n ih =>
    cases s with
    | nil => revert hs; decide
    | cons c cs =>
      simp only [List.headD_cons] at hs
      cases cs with
      | nil => rw [scan_number_single c hs, is_number_text_single]; exact hs
      | cons d ds =>
        by_cases hd : d = '.'
        · subst hd
          rw [scan_number_point c ds hs, is_number_text_point, Bool.and_eq_true,
            Bool.or_eq_true]
          refine ⟨hs, ?_⟩
          by_cases hn : isdigit (ds.headD '\x00') = true
          · exact Or.inr (ih ds.length (by subst hl; simp; omega) ds hn rfl)
          · left
            cases ds with
            | nil => rfl
            | cons x xs =>
              simp only [List.headD_cons, Bool.not_eq_true] at hn
              rw [scan_number_nondigit x xs hn]
              rfl
        · rw [scan_number_next c d ds hs hd]
          by_cases hn : isdigit d = true
          · obtain ⟨rest, hr⟩ := scan_number_head d ds hn
            have h := ih (d :: ds).length (by subst hl; simp) (d :: ds) (by simpa using hn) rfl
            rw [hr] at h ⊢
            rw [is_number_text_next c d rest hd, Bool.and_eq_true]
            exact ⟨hs, h⟩
          · simp only [Bool.not_eq_true] at hn
            rw [scan_number_nondigit d ds hn, is_number_text_single]
            exact hs

theorem skip_whitespace_le (s : List Char) : skip_whitespace s ≤ s.length := by
  induction s with
  | nil => exact Nat.le_refl 0
  | cons c cs ih =>
    rw [skip_whitespace]
    split
    · simp only [List.length_cons]; omega
    · exact Nat.zero_le _

theorem scan_number_length_le (s : List Char) : (scan_number s).length ≤ s.length := by
  generalize hl : s.length = n
  induction n using Nat.strong_induction_on generalizing s with
  | _ n ih =>
    cases s with
    | nil => subst hl; exact Nat.le_refl 0
    | cons c cs =>
      by_cases hc : isdigit c = true
      · cases cs with
        | nil => rw [scan_number_single c hc]; subst hl; exact Nat.le_refl _
        | cons d ds =>
          by_cases hd : d = '.'
          · subst hd
            rw [scan_number_point c ds hc]
            have := ih ds.length (by subst hl; simp; omega) ds rfl
            subst hl
            simp only [List.length_cons]
            omega
          · rw [scan_number_next c d ds hc hd]
            have := ih (d :: ds).length (by subst hl; simp) (d :: ds) rfl
            subst hl
            simp only [List.length_cons] at this ⊢
            omega
      · simp only [Bool.not_eq_true] at hc
        rw [scan_number_nondigit c cs hc]
        exact Nat.zero_le _

/-- A character other than the terminator is read before the end of the expression. -/
theorem char_at_lt (e : List Char) (i : Nat) (h : char_at e i ≠ '\x00') : i < e.length := by
  by_contra hge
  apply h
  unfold char_at
  rw [List.getD_eq_getElem?_getD, List.getElem?_eq_none (by omega)]
  rfl

/-- The four ways `next_token` ends, by the character found after the white space. -/
theorem next_token_cases (p : Parser) (k : Nat) (c : Char) (hk : k = skip_whitespace p.text)
    (hc : c = char_at p.m_expr (p.m_cursor + k)) :
    (∃ t, token_of_char c = some t ∧ next_token p = .ok (p.advance t [c] (k + 1))) ∨
    (isdigit c = true ∧
      next_token p = .ok (p.advance .NUMBER (scan_number (p.m_expr.drop (p.m_cursor + k)))
        (k + (scan_number (p.m_expr.drop (p.m_cursor + k))).length))) ∨
    (c ≠ '\x00' ∧ next_token p = .error (.column (p.m_cursor + k + 1))) ∨
    (c = '\x00' ∧ next_token p = .ok (p.advance p.token_type p.token_value k)) := by
  have hk' : skip_whitespace (List.drop p.m_cursor p.m_expr) = k := hk.symm
  unfold next_token
  simp only [hk', ← hc, Parser.advance, token_of_char, Nat.add_assoc]
  by_cases h1 : c = '+'
  · left; exact ⟨_, if_pos h1, by simp [h1]⟩
  by_cases h2 : c = '-'
  · left; exact ⟨.SUBSTRACTION_OP, by simp [h2], by simp [h2]⟩
  by_cases h3 : c = '/'
  · left; exact ⟨.DIVISION_OP, by simp [h3], by simp [h3]⟩
  by_cases h4 : c = '*'
  · left; exact ⟨.MULTIPLICATION_OP, by simp [h4], by simp [h4]⟩
  by_cases h5 : c = '('
  · left; exact ⟨.OPEN_PARENTHESIS, by simp [h5], by simp [h5]⟩
  by_cases h6 : c = ')'
  · left; exact ⟨.CLOSE_PARENTHESIS, by simp [h6], by simp [h6]⟩
  right
  simp only [h1, h2, h3, h4, h5, h6, if_false]
  by_cases hd : isdigit c = true
  · left; exact ⟨hd, by simp [hd]⟩
  right
  by_cases h0 : c = '\x00'
  · right
    refine ⟨h0, ?_⟩
    rw [if_neg hd, if_neg (by simpa using h0)]
  · left
    refine ⟨h0, ?_⟩
    rw [if_neg hd, if_pos (by simpa using h0)]

/-- The cursor after `next_token`: not before its place at the call and not past the end of
the expression; when `next_token` raises, the column of the error is the place of the cursor
plus one. -/
theorem next_token_cursor (p : Parser) (h : p.m_cursor ≤ p.m_expr.length) :
    (∀ q, next_token p = .ok q →
      p.m_cursor ≤ q.m_cursor ∧ q.m_cursor ≤ q.m_expr.length ∧ q.m_expr = p.m_expr) ∧
    (∀ e, next_token p = .error e →
      ∃ cur, e = .column (cur + 1) ∧ p.m_cursor ≤ cur ∧ cur < p.m_expr.length) := by
  have hk : skip_whitespace p.text ≤ p.m_expr.length - p.m_cursor := by
    have := skip_whitespace_le p.text
    simpa [Parser.text] using this
  have hs : (scan_number (p.m_expr.drop (p.m_cursor + skip_whitespace p.text))).length ≤
      p.m_expr.length - (p.m_cursor + skip_whitespace p.text) := by
    have := scan_number_length_le (p.m_expr.drop (p.m_cursor + skip_whitespace p.text))
    simpa using this
  rcases next_token_cases p _ _ rfl rfl with ⟨t, ht, hq⟩ | ⟨_, hq⟩ | ⟨h0, hq⟩ | ⟨_, hq⟩
  · have hlt := char_at_lt _ _ (token_ne_nul (by rw [ht]; rfl))
    constructor
    · intro q hq'
      rw [hq] at hq'
      injection hq' with hq'
      subst hq'
      simp only [Parser.advance]
      exact ⟨by omega, by omega, trivial⟩
    · intro e he
      rw [hq] at he
      cases he
  · constructor
    · intro q hq'
      rw [hq] at hq'
      injection hq' with hq'
      subst hq'
      simp only [Parser.advance]
      exact ⟨by omega, by omega, trivial⟩
    · intro e he
      rw [hq] at he
      cases he
  · have hlt := char_at_lt _ _ h0
    constructor
    · intro q hq'
      rw [hq] at hq'
      cases hq'
    · intro e he
      rw [hq] at he
      injection he with he
      exact ⟨_, he.symm, Nat.le_add_right _ _, hlt⟩
  · constructor
    · intro q hq'
      rw [hq] at hq'
      injection hq' with hq'
      subst hq'
      simp only [Parser.advance]
      exact ⟨by omega, by omega, trivial⟩
    · intro e he
      rw [hq] at he
      cases he

/-- The text of a number token after `next_token`, when it was one before. -/
theorem next_token_number_text (p q : Parser) (h : next_token p = .ok q)
    (hq : q.token_type = .NUMBER)
    (hp : p.token_type = .NUMBER → is_number_text p.token_value = true) :
    is_number_text q.token_value = true := by
  rcases next_token_cases p _ _ rfl rfl with ⟨t, ht, hn⟩ | ⟨hd, hn⟩ | ⟨_, hn⟩ | ⟨_, hn⟩
  · rw [hn] at h
    injection h with h
    subst h
    exact absurd hq (token_of_char_ne_number ht)
  · rw [hn] at h
    injection h with h
    subst h
    refine scan_number_is_number_text _ ?_
    rw [← char_at_of_drop _ _ _ rfl]
    exact hd
  · rw [hn] at h
    cases h
  · rw [hn] at h
    injection h with h
    subst h
    exact hp hq

/-! ## The claims -/

/-- C1. Every well-formed expression of the grammar `sum := term (('+'|'-') term)*`,
`term := unary (('*'|'/') unary)*`, `unary := '-'? primary`, `primary := number | '(' sum ')'`,
with numerals `digits[.digits]` shorter than the token buffer and any white space before,
between and after its tokens, whose text fits in the expression buffer, is evaluated by
`parse` without an error (nothing is printed) to the value of its expression tree, in which
operators of one level are nested to the left. -/
theorem C1_parse_well_formed {F : Type} (A : FloatOps F) (self : Parser) (x : Tree .sum)
    (trail : List Char) (hx : x.well_formed = true) (_hfit : x.fits = true)
    (ht : is_blank trail = true) (_hlen : fits_m_expr (x.render ++ trail) = true) :
    Returns A self (x.render ++ trail) ([], x.value A) :=
  parse_tree A self x trail hx ht

/-- C1 at ` 2 + 3 * ( 4 - 1 ) / -2 `, which is 2 + ((3 * (4 - 1)) / -2) = -5/2. -/
theorem C1_parse_well_formed_witness :
    Returns rational fresh " 2 + 3 * ( 4 - 1 ) / -2 ".toList ([], (-5 / 2 : ℚ)) := by
  have h := C1_parse_well_formed rational fresh sample_tree [' '] (by decide) (by decide)
    (by decide) (by decide)
  rw [sample_tree_value] at h
  exact h

/-- C2. Multiplication binds tighter than addition: for all numerals `a`, `b`, `c` that fit
in the token buffer, the texts `a + b * c` and `a * b + c` fit in the expression buffer, the
call `parse("a + b * c")` returns `a + (b * c)` and `parse("a * b + c")` returns
`(a * b) + c`. -/
theorem C2_precedence {F : Type} (A : FloatOps F) (self : Parser) (a b c : List Char)
    (ha : is_numeral a = true) (hb : is_numeral b = true) (hc : is_numeral c = true)
    (ha' : fits_token_value a = true) (hb' : fits_token_value b = true)
    (hc' : fits_token_value c = true) :
    (fits_m_expr (a ++ " + ".toList ++ b ++ " * ".toList ++ c) = true ∧
      Returns A self (a ++ " + ".toList ++ b ++ " * ".toList ++ c)
        ([], A.add (A.strtod a) (A.mul (A.strtod b) (A.strtod c)))) ∧
    (fits_m_expr (a ++ " * ".toList ++ b ++ " + ".toList ++ c) = true ∧
      Returns A self (a ++ " * ".toList ++ b ++ " + ".toList ++ c)
        ([], A.add (A.mul (A.strtod a) (A.strtod b)) (A.strtod c))) := by
  refine ⟨⟨fits_m_expr_of_length _ (by
      have := fits_token_value_length ha'
      have := fits_token_value_length hb'
      have := fits_token_value_length hc'
      simp [MAX_EXPRESSION_LENGTH]; omega), ?_⟩, ⟨fits_m_expr_of_length _ (by
      have := fits_token_value_length ha'
      have := fits_token_value_length hb'
      have := fits_token_value_length hc'
      simp [MAX_EXPRESSION_LENGTH]; omega), ?_⟩⟩
  · have h := parse_tree A self
      (.add (.term (Tree.lit [] a)) [' '] .plus
        (.mul (Tree.lit [' '] b) [' '] .times (.plain (.num [' '] c)))) []
      (by simp [Tree.well_formed, Tree.lit, ha, hb, hc, is_blank, isspace_space]) rfl
    simpa [Tree.render, Tree.lit, AddOp.char, MulOp.char] using h
  · have h := parse_tree A self
      (.add (.term (.mul (Tree.lit [] a) [' '] .times (.plain (.num [' '] b)))) [' '] .plus
        (Tree.lit [' '] c)) []
      (by simp [Tree.well_formed, Tree.lit, ha, hb, hc, is_blank, isspace_space]) rfl
    simpa [Tree.render, Tree.lit, AddOp.char, MulOp.char] using h

/-- C2 at `2 + 3 * 4`: the call returns 14. -/
theorem C2_precedence_witness : Returns rational fresh "2 + 3 * 4".toList ([], (14 : ℚ)) := by
  have h := (C2_precedence rational fresh ['2'] ['3'] ['4'] (by decide) (by decide)
    (by decide) (by decide) (by decide) (by decide)).1.2
  have hv : rational.add (rational.strtod ['2']) (rational.mul (rational.strtod ['3'])
      (rational.strtod ['4'])) = (14 : ℚ) := by
    rw [rational_strtod_2, rational_strtod_3, rational_strtod_4]; norm_num [rational]
  rw [hv] at h
  exact h

/-- C3. Parentheses override precedence: for all numerals `a`, `b`, `c` that fit in the
token buffer, the text `(a + b) * c` fits in the expression buffer and the call
`parse("(a + b) * c")` returns `(a + b) * c`. -/
theorem C3_parentheses {F : Type} (A : FloatOps F) (self : Parser) (a b c : List Char)
    (ha : is_numeral a = true) (hb : is_numeral b = true) (hc : is_numeral c = true)
    (ha' : fits_token_value a = true) (hb' : fits_token_value b = true)
    (hc' : fits_token_value c = true) :
    fits_m_expr ("(".toList ++ a ++ " + ".toList ++ b ++ ") * ".toList ++ c) = true ∧
    Returns A self ("(".toList ++ a ++ " + ".toList ++ b ++ ") * ".toList ++ c)
      ([], A.mul (A.add (A.strtod a) (A.strtod b)) (A.strtod c)) := by
  refine ⟨fits_m_expr_of_length _ (by
      have := fits_token_value_length ha'
      have := fits_token_value_length hb'
      have := fits_token_value_length hc'
      simp [MAX_EXPRESSION_LENGTH]; omega), ?_⟩
  have h := parse_tree A self
    (.term (.mul (.unary (.plain (.paren []
      (.add (.term (Tree.lit [] a)) [' '] .plus (Tree.lit [' '] b)) [])))
      [' '] .times (.plain (.num [' '] c)))) []
    (by simp [Tree.well_formed, Tree.lit, ha, hb, hc, is_blank, isspace_space]) rfl
  simpa [Tree.render, Tree.lit, AddOp.char, MulOp.char] using h

/-- C3 at `(2 + 3) * 4`: the call returns 20. -/
theorem C3_parentheses_witness : Returns rational fresh "(2 + 3) * 4".toList ([], (20 : ℚ)) := by
  have h := (C3_parentheses rational fresh ['2'] ['3'] ['4'] (by decide) (by decide)
    (by decide) (by decide) (by decide) (by decide)).2
  have hv : rational.mul (rational.add (rational.strtod ['2']) (rational.strtod ['3']))
      (rational.strtod ['4']) = (20 : ℚ) := by
    rw [rational_strtod_2, rational_strtod_3, rational_strtod_4]; norm_num [rational]
  rw [hv] at h
  exact h

/-- C4. A leading unary minus negates only the primary after it and binds tighter than every
binary operator: for all numerals `a`, `b` that fit in the token buffer and each binary
operator `op`, the text `-a op b` fits in the expression buffer and the call
`parse("-a op b")` returns `(-a) op b`. -/
theorem C4_unary_minus {F : Type} (A : FloatOps F) (self : Parser) (a b : List Char)
    (op : BinOp) (ha : is_numeral a = true) (hb : is_numeral b = true)
    (ha' : fits_token_value a = true) (hb' : fits_token_value b = true) :
    fits_m_expr ("-".toList ++ a ++ " ".toList ++ [op.char] ++ " ".toList ++ b) = true ∧
    Returns A self ("-".toList ++ a ++ " ".toList ++ [op.char] ++ " ".toList ++ b)
      ([], op.apply A (A.neg (A.strtod a)) (A.strtod b)) := by
  refine ⟨fits_m_expr_of_length _ (by
      have := fits_token_value_length ha'
      have := fits_token_value_length hb'
      simp [MAX_EXPRESSION_LENGTH]; omega), ?_⟩
  cases op
  · have h := parse_tree A self
      (.add (.term (.unary (.minus [] (.num [] a)))) [' '] .plus (Tree.lit [' '] b)) []
      (by simp [Tree.well_formed, Tree.lit, ha, hb, is_blank, isspace_space]) rfl
    simpa [Tree.render, Tree.lit, AddOp.char, BinOp.char] using h
  · have h := parse_tree A self
      (.add (.term (.unary (.minus [] (.num [] a)))) [' '] .minus (Tree.lit [' '] b)) []
      (by simp [Tree.well_formed, Tree.lit, ha, hb, is_blank, isspace_space]) rfl
    simpa [Tree.render, Tree.lit, AddOp.char, BinOp.char] using h
  · have h := parse_tree A self
      (.term (.mul (.unary (.minus [] (.num [] a))) [' '] .times (.plain (.num [' '] b)))) []
      (by simp [Tree.well_formed, Tree.lit, ha, hb, is_blank, isspace_space]) rfl
    simpa [Tree.render, Tree.lit, MulOp.char, BinOp.char] using h
  · have h := parse_tree A self
      (.term (.mul (.unary (.minus [] (.num [] a))) [' '] .over (.plain (.num [' '] b)))) []
      (by simp [Tree.well_formed, Tree.lit, ha, hb, is_blank, isspace_space]) rfl
    simpa [Tree.render, Tree.lit, MulOp.char, BinOp.char] using h

/-- C4 at `-5 + 2`: the call returns -3. -/
theorem C4_unary_minus_witness : Returns rational fresh "-5 + 2".toList ([], (-3 : ℚ)) := by
  have h := (C4_unary_minus rational fresh ['5'] ['2'] .plus (by decide) (by decide)
    (by decide) (by decide)).2
  have hv : BinOp.plus.apply rational (rational.neg (rational.strtod ['5']))
      (rational.strtod ['2']) = (-3 : ℚ) := by
    rw [rational_strtod_2, rational_strtod_5]; norm_num [rational, BinOp.apply]
  rw [hv] at h
  exact h

/-- C5. Operators of equal precedence associate to the left: for all numerals `a`, `b`, `c`
that fit in the token buffer and all operators `o1`, `o2` that are both of `+ -` or both of
`* /`, the text `a o1 b o2 c` fits in the expression buffer and the call
`parse("a o1 b o2 c")` returns `(a o1 b) o2 c`; so `a - b - c` is `(a - b) - c` and
`a / b / c` is `(a / b) / c`. -/
theorem C5_left_associative {F : Type} (A : FloatOps F) (self : Parser) (a b c : List Char)
    (ha : is_numeral a = true) (hb : is_numeral b = true) (hc : is_numeral c = true)
    (ha' : fits_token_value a = true) (hb' : fits_token_value b = true)
    (hc' : fits_token_value c = true) :
    (∀ o1 o2 : AddOp,
      fits_m_expr
        (a ++ " ".toList ++ [o1.char] ++ " ".toList ++ b ++ " ".toList ++ [o2.char] ++
          " ".toList ++ c) = true ∧
      Returns A self
        (a ++ " ".toList ++ [o1.char] ++ " ".toList ++ b ++ " ".toList ++ [o2.char] ++
          " ".toList ++ c)
        ([], o2.apply A (o1.apply A (A.strtod a) (A.strtod b)) (A.strtod c))) ∧
    (∀ o1 o2 : MulOp,
      fits_m_expr
        (a ++ " ".toList ++ [o1.char] ++ " ".toList ++ b ++ " ".toList ++ [o2.char] ++
          " ".toList ++ c) = true ∧
      Returns A self
        (a ++ " ".toList ++ [o1.char] ++ " ".toList ++ b ++ " ".toList ++ [o2.char] ++
          " ".toList ++ c)
        ([], o2.apply A (o1.apply A (A.strtod a) (A.strtod b)) (A.strtod c))) := by
  constructor
  · intro o1 o2
    refine ⟨fits_m_expr_of_length _ (by
      have := fits_token_value_length ha'
      have := fits_token_value_length hb'
      have := fits_token_value_length hc'
      simp [MAX_EXPRESSION_LENGTH]; omega), ?_⟩
    have h := parse_tree A self
      (.add (.add (.term (Tree.lit [] a)) [' '] o1 (Tree.lit [' '] b)) [' '] o2
        (Tree.lit [' '] c)) []
      (by simp [Tree.well_formed, Tree.lit, ha, hb, hc, is_blank, isspace_space]) rfl
    simpa [Tree.render, Tree.lit] using h
  · intro o1 o2
    refine ⟨fits_m_expr_of_length _ (by
      have := fits_token_value_length ha'
      have := fits_token_value_length hb'
      have := fits_token_value_length hc'
      simp [MAX_EXPRESSION_LENGTH]; omega), ?_⟩
    have h := parse_tree A self
      (.term (.mul (.mul (Tree.lit [] a) [' '] o1 (.plain (.num [' '] b))) [' '] o2
        (.plain (.num [' '] c)))) []
      (by simp [Tree.well_formed, Tree.lit, ha, hb, hc, is_blank, isspace_space]) rfl
    simpa [Tree.render, Tree.lit] using h

/-- C5 at `8 - 3 - 2`, which is (8 - 3) - 2 = 3 and not 8 - (3 - 2) = 7, and at `8 / 4 / 2`,
which is (8 / 4) / 2 = 1 and not 8 / (4 / 2) = 4. -/
theorem C5_left_associative_witness :
    Returns rational fresh "8 - 3 - 2".toList ([], (3 : ℚ)) ∧
    Returns rational fresh "8 / 4 / 2".toList ([], (1 : ℚ)) := by
  have h1 := ((C5_left_associative rational fresh ['8'] ['3'] ['2'] (by decide) (by decide)
    (by decide) (by decide) (by decide) (by decide)).1 .minus .minus).2
  have h2 := ((C5_left_associative rational fresh ['8'] ['4'] ['2'] (by decide) (by decide)
    (by decide) (by decide) (by decide) (by decide)).2 .over .over).2
  have v1 : AddOp.minus.apply rational (AddOp.minus.apply rational (rational.strtod ['8'])
      (rational.strtod ['3'])) (rational.strtod ['2']) = (3 : ℚ) := by
    rw [rational_strtod_8, rational_strtod_3, rational_strtod_2]
    norm_num [rational, AddOp.apply]
  have v2 : MulOp.over.apply rational (MulOp.over.apply rational (rational.strtod ['8'])
      (rational.strtod ['4'])) (rational.strtod ['2']) = (1 : ℚ) := by
    rw [rational_strtod_8, rational_strtod_4, rational_strtod_2]
    norm_num [rational, MulOp.apply]
  rw [v1] at h1
  rw [v2] at h2
  exact ⟨h1, h2⟩

/-- C6. White space does not matter: two texts that write one sequence of tokens with
different white space before the first token, between the tokens and after the last one (a
number is never split, and two numbers are kept apart), with tokens that fit in the token
buffer and both texts fitting in the expression buffer, give `parse` the same outcome, at
every recursion budget: the same printed lines and number, or no return in both. -/
theorem C6_whitespace_insensitive {F : Type} (A : FloatOps F) (self : Parser)
    (l1 l2 : List (List Char × Token)) (t1 t2 : List Char)
    (htok : layout_tokens l1 = layout_tokens l2) (h1 : valid_layout l1 t1 = true)
    (h2 : valid_layout l2 t2 = true) (_hfit : fits_layout l1 = true)
    (_hlen1 : fits_m_expr (render_tokens l1 t1) = true)
    (_hlen2 : fits_m_expr (render_tokens l2 t2) = true) (n : Nat) :
    parse A n self (render_tokens l1 t1) = parse A n self (render_tokens l2 t2) :=
  parse_layouts A self l1 l2 t1 t2 htok h1 h2 n

/-- C6 at `2+3` and ` 2 + 3 `. -/
theorem C6_whitespace_insensitive_witness :
    (fun n => parse rational n fresh "2+3".toList) =
      (fun n => parse rational n fresh " 2 + 3 ".toList) :=
  funext fun n => C6_whitespace_insensitive rational fresh
    [([], .number ['2']), ([], .sign '+'), ([], .number ['3'])]
    [([' '], .number ['2']), ([' '], .sign '+'), ([' '], .number ['3'])] [] [' ']
    (by decide) (by decide) (by decide) (by decide) (by decide) (by decide) n

/-- C7 fails: on an open parenthesis with nothing but white space around it, as on the input
`(`, the call `parse` never returns. At the terminator `next_token` assigns nothing, the
current token stays the open parenthesis, and `level4` calls `level1` again without any
progress through the input; every recursion budget is used up. -/
theorem C7_open_parenthesis_diverges {F : Type} (A : FloatOps F) (self : Parser)
    (ws trail : List Char) (hws : is_blank ws = true) (ht : is_blank trail = true) :
    Diverges A self (ws ++ '(' :: trail) :=
  parse_open_diverges A self ws trail hws ht

/-- C7 at the input `(`. -/
theorem C7_open_parenthesis_diverges_witness : Diverges rational fresh "(".toList :=
  C7_open_parenthesis_diverges rational fresh [] [] rfl rfl

/-- C8 holds for an expression that ends with a number and fails for one that ends with a
close parenthesis. Let the text be an open parenthesis, a well-formed sum and white space,
with no close parenthesis for the first one. When the sum ends with a number, `parse` prints
the message of the missing close parenthesis. When the sum ends with a close parenthesis,
`next_token` leaves that token in place at the terminator, the outer `level4` takes it for
its own, and `parse` returns the value of the sum without an error. -/
theorem C8_unclosed_parenthesis {F : Type} (A : FloatOps F) (self : Parser) (ws : List Char)
    (x : Tree .sum) (trail : List Char) (hws : is_blank ws = true)
    (hx : x.well_formed = true) (ht : is_blank trail = true) :
    (x.last_type = .NUMBER →
      Returns A self (ws ++ '(' :: (x.render ++ trail)) ([Error.missing_close.what], A.zero)) ∧
    (x.last_type = .CLOSE_PARENTHESIS →
      Returns A self (ws ++ '(' :: (x.render ++ trail)) ([], x.value A)) :=
  parse_open_tree A self ws x trail hws hx ht

/-- C8 at `(2 + 3`, an error, and at `((2)`, which returns 2. -/
theorem C8_unclosed_parenthesis_witness :
    Returns rational fresh "(2 + 3".toList (["Missing close parenthesis"], (0 : ℚ)) ∧
    Returns rational fresh "((2)".toList ([], (2 : ℚ)) := by
  have h1 := (C8_unclosed_parenthesis rational fresh []
    (.add (.term (Tree.lit [] ['2'])) [' '] .plus (Tree.lit [' '] ['3'])) [] rfl (by decide)
    rfl).1 rfl
  have h2 := (C8_unclosed_parenthesis rational fresh []
    (.term (.unary (.plain (.paren [] (.term (Tree.lit [] ['2'])) [])))) [] rfl (by decide)
    rfl).2 rfl
  have hv : (Tree.term (.unary (.plain (.paren [] (.term (Tree.lit [] ['2'])) [])))).value
      rational = (2 : ℚ) := rational_strtod_2
  rw [hv] at h2
  exact ⟨h1, h2⟩

/-- C9. When the text at the cursor is white space followed by a character `c` that is none
of `+ - / * ( )`, no digit and not the terminator, then `c` is at the offset
`i = m_cursor + ws.length` of the expression and `next_token` throws the exception whose
message names the column `i + 1`; no token is produced. -/
theorem C9_unrecognized_character (p : Parser) (ws : List Char) (c : Char) (rest : List Char)
    (h : p.text = ws ++ c :: rest) (hws : is_blank ws = true) (hs : isspace c = false)
    (hc : token_of_char c = none) (hd : isdigit c = false) (h0 : c ≠ '\x00') :
    char_at p.m_expr (p.m_cursor + ws.length) = c ∧
    next_token p = .error (.column (p.m_cursor + ws.length + 1)) ∧
    (Error.column (p.m_cursor + ws.length + 1)).what =
      "Error occured at column " ++ toString (p.m_cursor + ws.length + 1) := by
  refine ⟨?_, ?_, rfl⟩
  · have hdrop : p.m_expr.drop (p.m_cursor + ws.length) = c :: rest := by
      rw [← List.drop_drop, show p.m_expr.drop p.m_cursor = ws ++ c :: rest from h]
      simp
    rw [char_at_of_drop _ _ _ hdrop]; rfl
  · rw [next_token_eq_lex p ws (c :: rest) h hws hs]
    simp [lex, hc, hd, h0]

/-- C9 at `2 + @`, with the cursor after the `+`: the `@` is at offset 4 and the error names
column 5; the call of `parse` prints that message. -/
theorem C9_unrecognized_character_witness :
    next_token ⟨.ADDITION_OP, ['+'], "2 + @".toList, 3⟩ = .error (.column 5) ∧
    Returns rational fresh "2 + @".toList (["Error occured at column 5"], (0 : ℚ)) :=
  ⟨(C9_unrecognized_character ⟨.ADDITION_OP, ['+'], "2 + @".toList, 3⟩ [' '] '@' [] rfl rfl
      rfl rfl rfl (by decide)).2.1,
    returns_of_run rational fresh _ 20 _ .zero (by decide!)⟩

/-- C10, amended. An operand is required where the source calls `next_token` and then a
level: `level1` at the start of the input and after an open parenthesis, `level2` and `level3`
after a binary operator, `level4` after a unary minus; `k` is what the caller does with the
operand. Let the text at the cursor be white space followed by a one-character token other
than `(`: then the call of `level4` throws the exception of `get_number`, and unless the token
is `-` so do the calls of `level3`, `level2` and `level1`, and `parse` prints its message when
this is the start of an input that fits in the expression buffer. Let the text at the cursor be white space up to the
terminator and the token read before be neither a number nor `(`: then all of this holds as
well. -/
theorem C10_operand_required {F : Type} (A : FloatOps F) (p0 : Parser) (ws : List Char)
    (n : Nat) (k : F × Parser → Outcome (F × Parser)) (hws : is_blank ws = true) :
    (∀ c rest t, p0.text = ws ++ c :: rest → token_of_char c = some t →
      t ≠ .OPEN_PARENTHESIS →
      next_token_call p0 (fun q => (level4 A (n + 1) q).bind k) = .throw .not_a_number ∧
      (t ≠ .SUBSTRACTION_OP →
        next_token_call p0 (fun q => (level3 A (n + 2) q).bind k) = .throw .not_a_number ∧
        next_token_call p0 (fun q => (level2 A (n + 3) q).bind k) = .throw .not_a_number ∧
        next_token_call p0 (fun q => (level1 A (n + 4) q).bind k) = .throw .not_a_number ∧
        ∀ self expr, p0 = parse_init self expr → fits_m_expr expr = true →
          parse A (n + 4) self expr = .ok ([Error.not_a_number.what], A.zero))) ∧
    (p0.text = ws → p0.token_type ≠ .NUMBER → p0.token_type ≠ .OPEN_PARENTHESIS →
      next_token_call p0 (fun q => (level4 A (n + 1) q).bind k) = .throw .not_a_number ∧
      next_token_call p0 (fun q => (level3 A (n + 2) q).bind k) = .throw .not_a_number ∧
      next_token_call p0 (fun q => (level2 A (n + 3) q).bind k) = .throw .not_a_number ∧
      next_token_call p0 (fun q => (level1 A (n + 4) q).bind k) = .throw .not_a_number ∧
      ∀ self expr, p0 = parse_init self expr → fits_m_expr expr = true →
        parse A (n + 4) self expr = .ok ([Error.not_a_number.what], A.zero)) := by
  constructor
  · intro c rest t ht hc ho
    have hn := next_token_char p0 ws c rest t ht hws hc
    have h1 : (p0.advance t [c] (ws.length + 1)).token_type ≠ .NUMBER :=
      token_of_char_ne_number hc
    refine ⟨next_token_call_throw _ _ _ _ ?_, fun hs => ?_⟩
    · rw [next_token_call_ok hn]; exact level4_throw A n _ h1 ho
    · have h3 := level3_throw A n _ h1 ho hs
      have h2 := level2_throw A _ _ _ h3
      have h1' : next_token_call p0 (level1 A (n + 4)) = .throw .not_a_number := by
        rw [next_token_call_ok hn]; exact level1_throw A _ _ _ h2
      refine ⟨next_token_call_throw _ _ _ _ ?_, next_token_call_throw _ _ _ _ ?_,
        next_token_call_throw _ _ _ _ h1', ?_⟩
      · rw [next_token_call_ok hn]; exact h3
      · rw [next_token_call_ok hn]; exact h2
      · rintro self expr rfl -
        exact parse_of_throw A _ self expr _ h1'
  · intro ht h1 ho
    have hn := next_token_end p0 ws ht hws
    have he : ({ p0 with m_cursor := p0.m_cursor + ws.length } : Parser).text = [] := by
      rw [← Parser.advance_self]
      exact Parser.advance_text p0 _ _ ws [] _ (by simpa using ht) rfl
    have h3 := level3_throw_end A n { p0 with m_cursor := p0.m_cursor + ws.length } h1 ho he
    have h2 := level2_throw A _ _ _ h3
    have h1' : next_token_call p0 (level1 A (n + 4)) = .throw .not_a_number := by
      rw [next_token_call_ok hn]; exact level1_throw A _ _ _ h2
    refine ⟨next_token_call_throw _ _ _ _ ?_, next_token_call_throw _ _ _ _ ?_,
      next_token_call_throw _ _ _ _ ?_, next_token_call_throw _ _ _ _ h1', ?_⟩
    · rw [next_token_call_ok hn]
      exact level4_throw A n { p0 with m_cursor := p0.m_cursor + ws.length } h1 ho
    · rw [next_token_call_ok hn]; exact h3
    · rw [next_token_call_ok hn]; exact h2
    · rintro self expr rfl -
      exact parse_of_throw A _ self expr _ h1'

/-- C10 at `2 + * 3` after the `+`, where the loop of `level1` calls `level2`, and at the
inputs ``, `2 +` and `2 + * 3`, on which `parse` prints the message of `get_number`. -/
theorem C10_operand_required_witness :
    next_token_call (Parser.advance (parse_init fresh "2 + * 3".toList) .ADDITION_OP ['+'] 3)
      (fun q => (level2 rational 3 q).bind fun r => level1_loop rational 3 r.1 r.2) =
        .throw .not_a_number ∧
    parse rational 4 fresh "".toList = .ok ([Error.not_a_number.what], (0 : ℚ)) ∧
    Returns rational fresh "".toList ([Error.not_a_number.what], (0 : ℚ)) ∧
    Returns rational fresh "2 +".toList ([Error.not_a_number.what], (0 : ℚ)) ∧
    Returns rational fresh "2 + * 3".toList ([Error.not_a_number.what], (0 : ℚ)) :=
  ⟨(((C10_operand_required rational
      (Parser.advance (parse_init fresh "2 + * 3".toList) .ADDITION_OP ['+'] 3) [' '] 0
      (fun r => level1_loop rational 3 r.1 r.2) rfl).1
      '*' " 3".toList .MULTIPLICATION_OP rfl rfl (by decide)).2 (by decide)).2.1,
    ((C10_operand_required rational (parse_init fresh "".toList) [] 0 .ok rfl).2 rfl
      (by decide) (by decide)).2.2.2.2 fresh [] rfl rfl,
    returns_of_run rational fresh _ 20 _ .zero (by decide!),
    returns_of_run rational fresh _ 20 _ .zero (by decide!),
    returns_of_run rational fresh _ 20 _ .zero (by decide!)⟩

/-- C10 as stated fails at `-5`: an operand is required at the start of the input, the next
token is the operator `-`, neither a number nor `(`, and `parse` returns -5 without an
error. -/
theorem C10_counterexample :
    next_token (parse_init fresh "-5".toList) =
      .ok ⟨.SUBSTRACTION_OP, ['-'], "-5".toList, 1⟩ ∧
    Returns rational fresh "-5".toList ([], (-5 : ℚ)) := by
  refine ⟨rfl, ?_⟩
  have h := returns_of_run rational fresh "-5".toList 20 [] (.neg (.lit ['5'])) (by decide!)
  have hv : (Sym.neg (.lit ['5'])).eval rational = (-5 : ℚ) := by
    show rational.neg (rational.strtod ['5']) = -5
    rw [rational_strtod_5]; rfl
  rw [hv] at h
  exact h


/-- C11. Two minus signs in a row where an operand is required are rejected, whatever text
`t` follows them: at the start of an input that fits in the expression buffer `parse` prints
the message of `get_number`, and at every operand position (a call of `next_token` followed by `level3`, `level2` or `level1`,
with `k` what the caller does next) the exception of `get_number` is thrown. A second minus
sign inside parentheses is accepted: `-(-5)` is evaluated to `-(-5)`. -/
theorem C11_chained_minus {F : Type} (A : FloatOps F) (self : Parser) (ws0 ws t : List Char)
    (hws0 : is_blank ws0 = true) (hws : is_blank ws = true) :
    (fits_m_expr (ws0 ++ '-' :: (ws ++ '-' :: t)) = true →
      Returns A self (ws0 ++ '-' :: (ws ++ '-' :: t))
        ([Error.not_a_number.what], A.zero)) ∧
    (∀ (p0 : Parser) (n : Nat) (k : F × Parser → Outcome (F × Parser)),
      p0.text = ws0 ++ '-' :: (ws ++ '-' :: t) →
      next_token_call p0 (fun q => (level3 A (n + 2) q).bind k) = .throw .not_a_number ∧
      next_token_call p0 (fun q => (level2 A (n + 3) q).bind k) = .throw .not_a_number ∧
      next_token_call p0 (fun q => (level1 A (n + 4) q).bind k) = .throw .not_a_number) ∧
    Returns A self "-(-5)".toList ([], A.neg (A.neg (A.strtod ['5']))) := by
  have key : ∀ (p0 : Parser) (n : Nat) (t' : List Char),
      p0.text = ws0 ++ '-' :: (ws ++ '-' :: t') →
      next_token_call p0 (level3 A (n + 2)) = .throw .not_a_number ∧
      next_token_call p0 (level2 A (n + 3)) = .throw .not_a_number ∧
      next_token_call p0 (level1 A (n + 4)) = .throw .not_a_number := by
    intro p0 n t' ht
    have h0 := next_token_char p0 ws0 '-' (ws ++ '-' :: t') _ ht hws0 rfl
    have ht1 := Parser.advance_text p0 .SUBSTRACTION_OP ['-'] (ws0 ++ ['-'])
      (ws ++ '-' :: t') (ws0.length + 1) (by rw [ht]; simp) (by simp)
    have h1 := next_token_char _ ws '-' t' _ ht1 hws rfl
    have h3 := level3_minus_minus A n _ _ rfl h1 rfl
    have h2 := level2_throw A _ _ _ h3
    have h1' := level1_throw A _ _ _ h2
    exact ⟨(next_token_call_ok h0 _).trans h3, (next_token_call_ok h0 _).trans h2,
      (next_token_call_ok h0 _).trans h1'⟩
  refine ⟨fun _ => ?_, ?_, ?_⟩
  · have htext := parse_init_text_append self (ws0 ++ '-' :: (ws ++ ['-'])) t (fun c hc => by
      simp only [List.mem_append, List.mem_cons, List.mem_singleton, List.not_mem_nil,
        or_false] at hc
      rcases hc with hc | rfl | hc | rfl
      · exact is_blank_chars ws0 hws0 c hc
      · decide
      · exact is_blank_chars ws hws c hc
      · decide)
    have hk := (key (parse_init self (ws0 ++ '-' :: (ws ++ '-' :: t))) 0
      (t.takeWhile fun c => decide (c ≠ '\x00')) (by
        have he : ws0 ++ '-' :: (ws ++ '-' :: t) = (ws0 ++ '-' :: (ws ++ ['-'])) ++ t := by
          simp
        rw [he, htext]
        simp)).2.2
    refine returns_of_parse A self _ _ 4 ?_
    exact parse_of_throw A 4 self _ _ hk
  · intro p0 n k ht
    obtain ⟨h3, h2, h1⟩ := key p0 n t ht
    exact ⟨next_token_call_throw _ _ _ _ h3, next_token_call_throw _ _ _ _ h2,
      next_token_call_throw _ _ _ _ h1⟩
  · exact parse_tree A self
      (.term (.unary (.minus [] (.paren [] (.term (.unary (.minus [] (.num [] ['5'])))) []))))
      [] rfl rfl

/-- C11 at `--5` and at `- -5)`, which print the message of `get_number`, and at `-(-5)`,
which is 5. -/
theorem C11_chained_minus_witness :
    Returns rational fresh "--5".toList ([Error.not_a_number.what], (0 : ℚ)) ∧
    Returns rational fresh "- -5)".toList ([Error.not_a_number.what], (0 : ℚ)) ∧
    Returns rational fresh "-(-5)".toList ([], (5 : ℚ)) := by
  have h1 := (C11_chained_minus rational fresh [] [] ['5'] rfl rfl).1 (by decide)
  have h2 := (C11_chained_minus rational fresh [] [' '] ['5', ')'] rfl rfl).1 (by decide)
  have h3 := (C11_chained_minus rational fresh [] [] [] rfl rfl).2.2
  have hv : rational.neg (rational.neg (rational.strtod ['5'])) = (5 : ℚ) := by
    rw [rational_strtod_5]; norm_num [rational]
  rw [hv] at h3
  exact ⟨h1, h2, h3⟩

/-- C12. Division by zero is no error: for all well-formed operands `a` and `b` with
numerals that fit in the token buffer, whatever `b` evaluates to, and so when it evaluates to
zero, on a text `a / b` that fits in the expression buffer `parse` prints nothing and returns
the quotient the division operator computes from the values of `a` and `b`. -/
theorem C12_division_by_zero {F : Type} (A : FloatOps F) (self : Parser) (a : Tree .term)
    (ws : List Char) (b : Tree .unary) (trail : List Char) (ha : a.well_formed = true)
    (hws : is_blank ws = true) (hb : b.well_formed = true) (ht : is_blank trail = true)
    (_hfa : a.fits = true) (_hfb : b.fits = true)
    (_hlen : fits_m_expr (a.render ++ (ws ++ '/' :: b.render) ++ trail) = true) :
    Returns A self (a.render ++ (ws ++ '/' :: b.render) ++ trail)
      ([], A.div (a.value A) (b.value A)) := by
  have h := parse_tree A self (.term (.mul a ws .over b)) trail
    (by simp [Tree.well_formed, ha, hws, hb]) ht
  simpa [Tree.render, MulOp.char] using h

/-- C12 at `10 / 0`: in the arithmetic of signed zeros and infinities the call returns
positive infinity; and at `0 / 0`, which is not-a-number. -/
theorem C12_division_by_zero_witness :
    Returns ieee fresh "10 / 0".toList ([], Ieee.infinite false) ∧
    Returns ieee fresh "0 / 0".toList ([], Ieee.nan) := by
  have h1 := C12_division_by_zero ieee fresh (Tree.lit [] ['1', '0']) [' ']
    (.plain (.num [' '] ['0'])) [] (by decide) rfl (by decide) rfl (by decide) (by decide)
    (by decide)
  have h2 := C12_division_by_zero ieee fresh (Tree.lit [] ['0']) [' ']
    (.plain (.num [' '] ['0'])) [] (by decide) rfl (by decide) rfl (by decide) (by decide)
    (by decide)
  have hten : rational_strtod ['1', '0'] = 10 := by
    have := rational_strtod_eq ['1', '0'] 10 0 (by decide) (by decide)
    rw [show rational.strtod ['1', '0'] = rational_strtod ['1', '0'] from rfl] at this
    rw [this]; norm_num
  have hzero : rational_strtod ['0'] = 0 := by
    have := rational_strtod_eq ['0'] 0 0 (by decide) (by decide)
    rw [show rational.strtod ['0'] = rational_strtod ['0'] from rfl] at this
    rw [this]; norm_num
  have v1 : ieee.div ((Tree.lit [] ['1', '0']).value ieee)
      ((Tree.plain (.num [' '] ['0'])).value ieee) = Ieee.infinite false := by
    show Ieee.div (.finite (rational_strtod ['1', '0']) false)
      (.finite (rational_strtod ['0']) false) = _
    rw [hten, hzero]
    simp [Ieee.div, Ieee.negative]
  have v2 : ieee.div ((Tree.lit [] ['0']).value ieee)
      ((Tree.plain (.num [' '] ['0'])).value ieee) = Ieee.nan := by
    show Ieee.div (.finite (rational_strtod ['0']) false)
      (.finite (rational_strtod ['0']) false) = _
    rw [hzero]
    simp [Ieee.div]
  rw [v1] at h1
  rw [v2] at h2
  exact ⟨h1, h2⟩

/-- C13. A call of `parse` does not depend on earlier calls: whatever token kind, token
text, expression and cursor two `Parser` objects hold, `parse` starts from the same state on
both and has the same outcome at every recursion budget; so a call returns on one object what
it returns on the other, and the same call made twice returns the same. -/
theorem C13_independent_calls {F : Type} (A : FloatOps F) (self1 self2 : Parser)
    (expr : List Char) :
    parse_init self1 expr = parse_init self2 expr ∧
    (∀ n, parse A n self1 expr = parse A n self2 expr) ∧
    (∀ r, Returns A self1 expr r ↔ Returns A self2 expr r) ∧
    (Diverges A self1 expr ↔ Diverges A self2 expr) :=
  ⟨rfl, fun _ => rfl, fun _ => Iff.rfl, Iff.rfl⟩

/-- C14. An exception raised while lexing or parsing ends the evaluation at once, and no
partial result is returned: when during `parse(expr)` a `throw` of `next_token`, `get_number`,
`eval_operator` or `level4` is reached, in `parse` itself or at any depth of the calls of the
levels, the `try` block ends with that exception, `parse` prints its message and returns
`0.0f`, and `parse` does not return a value without a message. -/
theorem C14_no_partial_result {F : Type} (A : FloatOps F) (n : Nat) (self : Parser)
    (expr : List Char) (e : Error) (h : RaisedInParse A n self expr e) :
    parse_try A n self expr = .throw e ∧
    parse A n self expr = .ok ([e.what], A.zero) ∧
    ∀ v, parse A n self expr ≠ .ok ([], v) := by
  have ht : parse_try A n self expr = .throw e := by
    rcases h with h | ⟨q, hq, h⟩
    · exact next_token_call_error h _
    · exact (next_token_call_ok hq _).trans (raises_throw A h)
  have hp : parse A n self expr = .ok ([e.what], A.zero) := by
    unfold parse
    rw [ht]
  refine ⟨ht, hp, fun v hv => ?_⟩
  rw [hp] at hv
  injection hv with hv
  injection hv with h1 h2
  cases h1

/-- C14 at `2 + @`: the unknown character is met in the loop of `level1`, after the value 2
of the first term is computed; `parse` prints the column error and returns 0, not 2. -/
theorem C14_no_partial_result_witness :
    parse rational 20 fresh "2 + @".toList = .ok (["Error occured at column 5"], (0 : ℚ)) ∧
    parse rational 20 fresh "2 + @".toList ≠ .ok ([], (2 : ℚ)) :=
  have h := C14_no_partial_result rational 20 fresh "2 + @".toList (.column 5)
    (Or.inr ⟨⟨.NUMBER, ['2'], "2 + @".toList, 1⟩, rfl,
      .level1_rest
        (show level2 rational 19 ⟨.NUMBER, ['2'], "2 + @".toList, 1⟩ =
          .ok (rational.strtod ['2'], ⟨.ADDITION_OP, ['+'], "2 + @".toList, 3⟩) from rfl)
        (.loop1_next (Or.inl rfl) rfl)⟩)
  ⟨h.2.1, h.2.2 2⟩

/-- C15, amended. A numeral with several points, each right after a digit, as `1.2.3`, is
no error: `next_token` reads it as one number token, and an expression that is well formed
but for such numerals, with numerals that fit in the token buffer and a text that fits in
the expression buffer, is evaluated by `parse` to the value of its tree, in which the value
of a numeral is what `strtod` reads from its text; nothing is printed. -/
theorem C15_several_points {F : Type} (A : FloatOps F) (self : Parser) (x : Tree .sum)
    (trail : List Char) (hx : x.lexable = true) (ht : is_blank trail = true)
    (_hfit : x.fits = true) (_hlen : fits_m_expr (x.render ++ trail) = true) :
    Returns A self (x.render ++ trail) ([], x.value A) :=
  parse_lexable_tree A self x trail hx ht

/-- C15 at `1.2.3 + 1`: `strtod` reads 1.2 from `1.2.3`, and the call returns 11/5. -/
theorem C15_several_points_witness :
    Returns rational fresh "1.2.3 + 1".toList ([], (11 / 5 : ℚ)) := by
  have h := C15_several_points rational fresh
    (.add (.term (Tree.lit [] "1.2.3".toList)) [' '] .plus (Tree.lit [' '] ['1'])) []
    (by decide) rfl (by decide) (by decide)
  have hv : (Tree.add (.term (Tree.lit [] "1.2.3".toList)) [' '] .plus
      (Tree.lit [' '] ['1'])).value rational = (11 / 5 : ℚ) := by
    show rational.add (rational.strtod "1.2.3".toList) (rational.strtod ['1']) = _
    rw [rational_strtod_several, rational_strtod_1]; norm_num [rational]
  rw [hv] at h
  exact h

/-- C15 as stated fails at `1.2.3`: the text has two points and is no numeral, and `parse`
returns 6/5, the value `strtod` reads from it, without an error. -/
theorem C15_counterexample :
    is_numeral "1.2.3".toList = false ∧
    Returns rational fresh "1.2.3".toList ([], (6 / 5 : ℚ)) := by
  refine ⟨by decide, ?_⟩
  have h := returns_of_run rational fresh "1.2.3".toList 20 [] (.lit "1.2.3".toList)
    (by decide!)
  have hv : (Sym.lit "1.2.3".toList).eval rational = (6 / 5 : ℚ) := rational_strtod_several
  rw [hv] at h
  exact h

/-- C16 fails: `next_token` has no check of the length of a token. On a number text of
`MAX_TOKEN_LENGTH` characters or more it raises no error and produces a number token with the
whole text, which with its terminator does not fit in `MAX_TOKEN_LENGTH` characters. -/
theorem C16_long_number (p : Parser) (ws text tail : List Char)
    (h : p.text = ws ++ (text ++ tail)) (hws : is_blank ws = true)
    (hn : is_number_text text = true) (ht : ends_numeral tail = true)
    (hlen : MAX_TOKEN_LENGTH ≤ text.length) :
    ∃ q, next_token p = .ok q ∧ q.token_type = .NUMBER ∧ q.token_value = text ∧
      MAX_TOKEN_LENGTH < q.token_value.length + 1 :=
  ⟨_, next_token_number p ws text tail h hws hn ht, rfl, rfl, Nat.lt_succ_of_le hlen⟩

/-- C16 at a numeral of 20 digits: a number token of 20 characters is produced, and `parse`
returns the number without an error. -/
theorem C16_long_number_witness :
    (∃ q, next_token (parse_init fresh "12345678901234567890".toList) = .ok q ∧
      q.token_type = .NUMBER ∧ q.token_value = "12345678901234567890".toList ∧
      MAX_TOKEN_LENGTH < q.token_value.length + 1) ∧
    Returns sym fresh "12345678901234567890".toList
      ([], Sym.lit "12345678901234567890".toList) :=
  ⟨C16_long_number (parse_init fresh "12345678901234567890".toList) []
      "12345678901234567890".toList [] rfl rfl (by decide) rfl (by decide),
    returns_of_run sym fresh _ 20 _ (.lit "12345678901234567890".toList) (by decide!)⟩

/-- C17 fails in its second half: when only white space is left up to the terminator,
`next_token` raises no error and moves the cursor to the terminator, but it assigns neither
the token kind nor the token text: the kind of the token read before stays, and is not set to
`UNDEFINED`. -/
theorem C17_end_of_input (p : Parser) (ws : List Char) (h : p.text = ws)
    (hws : is_blank ws = true) :
    ∃ q, next_token p = .ok q ∧ q.token_type = p.token_type ∧
      q.token_value = p.token_value ∧ q.m_cursor = p.m_cursor + ws.length :=
  ⟨_, next_token_end p ws h hws, rfl, rfl, rfl⟩

/-- C17 at `2 `, after the token `2` is read: the token kind stays `NUMBER`. -/
theorem C17_end_of_input_witness :
    ∃ q, next_token ⟨.NUMBER, ['2'], "2 ".toList, 1⟩ = .ok q ∧ q.token_type = .NUMBER ∧
      q.token_type ≠ .UNDEFINED := by
  obtain ⟨q, hq, ht, _, _⟩ := C17_end_of_input ⟨.NUMBER, ['2'], "2 ".toList, 1⟩ [' '] rfl rfl
  exact ⟨q, hq, ht, by rw [ht]; decide⟩

/-- C18, amended. The text of a number token is a digit with an optional point after it,
one or more times: it is not empty, starts with a digit, and each of its points comes right
after a digit. This holds when `parse` starts (there is no number token), and each call of
`next_token` that returns keeps it. -/
theorem C18_number_token (self : Parser) (expr : List Char) (p q : Parser)
    (h : next_token p = .ok q) (hq : q.token_type = .NUMBER)
    (hp : p.token_type = .NUMBER → is_number_text p.token_value = true) :
    (parse_init self expr).token_type ≠ .NUMBER ∧ is_number_text q.token_value = true :=
  ⟨by simp [parse_init], next_token_number_text p q h hq hp⟩

/-- C18 at `12.5+`, read from the start. -/
theorem C18_number_token_witness :
    (parse_init fresh "12.5+".toList).token_type ≠ .NUMBER ∧
    is_number_text "12.5".toList = true :=
  C18_number_token fresh "12.5+".toList (parse_init fresh "12.5+".toList)
    ⟨.NUMBER, "12.5".toList, "12.5+".toList, 4⟩ rfl rfl (by decide)

/-- C18 as stated fails at `1.` and at `1.2.3`: `next_token` produces number tokens with
these texts, and neither is a numeral: in the first the point is not between digits, the
second has two points. -/
theorem C18_counterexample :
    next_token (parse_init fresh "1.".toList) = .ok ⟨.NUMBER, "1.".toList, "1.".toList, 2⟩ ∧
    is_numeral "1.".toList = false ∧
    next_token (parse_init fresh "1.2.3".toList) =
      .ok ⟨.NUMBER, "1.2.3".toList, "1.2.3".toList, 5⟩ ∧
    is_numeral "1.2.3".toList = false :=
  ⟨rfl, by decide, rfl, by decide⟩

/-- C19. While the texts fit in their buffers, the cursor never goes back and never passes
the terminator. When `parse` starts on an expression that fits in the expression buffer, the
cursor is at the start of the stored expression, which fits in the buffer and holds no NUL
before its end. From a state whose expression fits in the buffer and whose cursor is not past
the end, a call of `next_token` that returns with a token that fits in the token buffer
leaves the expression as it is and the cursor at or after its old place and not past the end;
and a call that raises stops at a place at or after the old cursor and before the end, the
column of its message less one, and has written no token. -/
theorem C19_cursor (self : Parser) (expr : List Char) (p : Parser)
    (hexpr : fits_m_expr expr = true) (_hp : p.m_expr.length < MAX_EXPRESSION_LENGTH)
    (h : p.m_cursor ≤ p.m_expr.length) :
    ((parse_init self expr).m_cursor ≤ (parse_init self expr).m_expr.length ∧
      (parse_init self expr).m_expr.length < MAX_EXPRESSION_LENGTH ∧
      ∀ c ∈ (parse_init self expr).m_expr, c ≠ '\x00') ∧
    (∀ q, next_token p = .ok q → fits_token_value q.token_value = true →
      p.m_cursor ≤ q.m_cursor ∧ q.m_cursor ≤ q.m_expr.length ∧ q.m_expr = p.m_expr) ∧
    (∀ e, next_token p = .error e →
      ∃ cur, e = .column (cur + 1) ∧ p.m_cursor ≤ cur ∧ cur < p.m_expr.length) := by
  refine ⟨⟨Nat.zero_le _, by simpa [fits_m_expr, parse_init] using hexpr, fun c hc => ?_⟩,
    fun q hq _ => (next_token_cursor p h).1 q hq, (next_token_cursor p h).2⟩
  have := List.mem_takeWhile_imp hc
  simpa using this

/-- C19 at `2 + @`: from the start the cursor goes to 1, and after the `+` the call raises
at the place 4, before the end 5. -/
theorem C19_cursor_witness :
    (∀ q, next_token (parse_init fresh "2 + @".toList) = .ok q →
      fits_token_value q.token_value = true →
      0 ≤ q.m_cursor ∧ q.m_cursor ≤ q.m_expr.length ∧
        q.m_expr = (parse_init fresh "2 + @".toList).m_expr) ∧
    (∀ e, next_token ⟨.ADDITION_OP, ['+'], "2 + @".toList, 3⟩ = .error e →
      ∃ cur, e = .column (cur + 1) ∧ 3 ≤ cur ∧ cur < 5) :=
  ⟨(C19_cursor fresh "2 + @".toList (parse_init fresh "2 + @".toList) (by decide)
      (by decide) (by decide)).2.1,
    (C19_cursor fresh "2 + @".toList ⟨.ADDITION_OP, ['+'], "2 + @".toList, 3⟩ (by decide)
      (by decide) (by decide)).2.2⟩

/-- C20. What follows the first complete expression is ignored. After a well-formed sum
with numerals that fit in the token buffer, white space, a close parenthesis and any text
`t`, or after such a sum, white space that is not empty and a further numeral that fits in the
token buffer, `parse` returns the value of the sum and prints nothing, when the whole text
fits in the expression buffer. -/
theorem C20_rest_ignored {F : Type} (A : FloatOps F) (self : Parser) (x : Tree .sum)
    (ws t num : List Char) (hx : x.well_formed = true) (hws : is_blank ws = true)
    (_hfit : x.fits = true) :
    (fits_m_expr (x.render ++ (ws ++ ')' :: t)) = true →
      Returns A self (x.render ++ (ws ++ ')' :: t)) ([], x.value A)) ∧
    (ws ≠ [] → is_numeral num = true → fits_token_value num = true →
      fits_m_expr (x.render ++ (ws ++ num)) = true →
      Returns A self (x.render ++ (ws ++ num)) ([], x.value A)) := by
  have hl := x.lexable_of_well_formed hx
  constructor
  · intro _
    have htext := parse_init_text_append self (x.render ++ (ws ++ [')'])) t (fun c hc => by
      simp only [List.mem_append, List.mem_singleton] at hc
      rcases hc with hc | hc | rfl
      · exact x.render_chars hl c hc
      · exact is_blank_chars ws hws c hc
      · decide)
    have he : x.render ++ (ws ++ ')' :: t) = (x.render ++ (ws ++ [')'])) ++ t := by simp
    rw [he]
    have htext' : (parse_init self ((x.render ++ (ws ++ [')'])) ++ t)).text =
        x.render ++ (ws ++ ')' :: t.takeWhile fun c => decide (c ≠ '\x00')) := by
      rw [htext]; simp
    have hafter := Parser.advance_text _ x.last_type x.last_text x.render _ _ htext' rfl
    have hn := next_token_char _ ws ')' _ _ hafter hws rfl
    exact parse_tree_followed A self _ x _ _ hl htext'
      (ends_numeral_token ws ')' _ _ hws rfl) hn (by simp [Parser.advance])
      (by simp [Parser.advance]) (by simp [Parser.advance]) (by simp [Parser.advance])
  · intro hne hnum _ _
    have htext := parse_init_text self (x.render ++ (ws ++ num)) (fun c hc => by
      simp only [List.mem_append] at hc
      rcases hc with hc | hc | hc
      · exact x.render_chars hl c hc
      · exact is_blank_chars ws hws c hc
      · rcases is_numeral_chars num hnum c hc with k | k
        · exact isdigit_ne_nul k
        · rw [k]; decide)
    have hafter := Parser.advance_text _ x.last_type x.last_text x.render _ _ htext rfl
    have hn := next_token_numeral _ ws num [] (by rw [hafter]; simp) hws hnum rfl
    have hends : ends_numeral (ws ++ num) = true := by
      cases ws with
      | nil => exact (hne rfl).elim
      | cons c cs =>
        simp only [is_blank, List.all_cons, Bool.and_eq_true] at hws
        simp only [List.cons_append, ends_numeral, Bool.and_eq_true, Bool.not_eq_true',
          bne_iff_ne]
        exact ⟨isspace_not_digit hws.1, isspace_ne_point hws.1⟩
    exact parse_tree_followed A self _ x _ _ hl htext hends hn (by simp [Parser.advance])
      (by simp [Parser.advance]) (by simp [Parser.advance]) (by simp [Parser.advance])

/-- C20 at `2 3`, which is 2, and at `2 + 3)*@(`, which is 5. -/
theorem C20_rest_ignored_witness :
    Returns rational fresh "2 3".toList ([], (2 : ℚ)) ∧
    Returns rational fresh "2 + 3)*@(".toList ([], (5 : ℚ)) := by
  have h1 := (C20_rest_ignored rational fresh (.term (Tree.lit [] ['2'])) [' '] [] ['3']
    (by decide) rfl (by decide)).2 (by decide) (by decide) (by decide) (by decide)
  have h2 := (C20_rest_ignored rational fresh
    (.add (.term (Tree.lit [] ['2'])) [' '] .plus (Tree.lit [' '] ['3'])) [] "*@(".toList []
    (by decide) rfl (by decide)).1 (by decide)
  have v1 : (Tree.term (Tree.lit [] ['2'])).value rational = (2 : ℚ) := rational_strtod_2
  have v2 : (Tree.add (.term (Tree.lit [] ['2'])) [' '] .plus (Tree.lit [' '] ['3'])).value
      rational = (5 : ℚ) := by
    show rational.add (rational.strtod ['2']) (rational.strtod ['3']) = _
    rw [rational_strtod_2, rational_strtod_3]; norm_num [rational]
  rw [v1] at h1
  rw [v2] at h2
  exact ⟨h1, h2⟩

end smallcalc
